import Mathlib

/-!
Verification of the unitypackage-js asset-container library.

This file shallowly embeds the TypeScript sources (the UnityPackage store in
src/unitypackage.ts and its extended variant, the tar-gz helpers in
src/utils/tar-gz.ts, the UnityAnimation editor, and the UnityPrefab editor)
into Lean and proves the specified properties about the embedding.

Modelling conventions:
- byte arrays (Uint8Array) are List Nat, strings are Lean String / List Char;
- JS Map objects are association lists with JS insertion-order semantics
  (mget / mset / mdel / mhas below);
- the platform text codec (TextEncoder / TextDecoder without the fatal flag)
  is modelled by a total UTF-8 encoder and a total lossy UTF-8 decoder that
  emits U+FFFD for invalid sequences and never throws, matching the WHATWG
  behaviour used by the code;
- the external archive codec (nanotar) is out of scope per the spec and is
  treated as a faithful transport of the entry list, so round-trip claims are
  settled at the entry-list level;
- stateful methods are modelled as functions returning the new store; methods
  that can throw return the store present at every exit so that
  unchanged-on-error claims are meaningful.
-/

/-- Hexadecimal character class, as used by the character class a-fA-F0-9 in
the guid-reference regular expression. -/
def isHexDigit (c : Char) : Bool :=
  ('0' ≤ c ∧ c ≤ '9') ∨ ('a' ≤ c ∧ c ≤ 'f') ∨ ('A' ≤ c ∧ c ≤ 'F')

/-- Whitespace class used to model the regex class backslash-s and the
String.trim of JavaScript (ASCII part, which is what the code relies on). -/
def jsWs (c : Char) : Bool :=
  c = ' ' ∨ c = '\t' ∨ c = '\n' ∨ c = '\r' ∨ c = '\x0b' ∨ c = '\x0c'

/-- Line terminators recognised by multiline anchors in JS regexes (the BMP
ones actually occurring in the documents handled by the code). -/
def isTerm (c : Char) : Bool := c = '\n' ∨ c = '\r'

/-- Decimal digit class of the regex class backslash-d. -/
def isDigitCh (c : Char) : Bool := '0' ≤ c ∧ c ≤ '9'

/-- Word-character class of the regex class backslash-w. -/
def isWordChar (c : Char) : Bool :=
  ('a' ≤ c ∧ c ≤ 'z') ∨ ('A' ≤ c ∧ c ≤ 'Z') ∨ ('0' ≤ c ∧ c ≤ '9') ∨ c = '_'

/-- Left brace character (written via its code point). -/
def lbrace : Char := Char.ofNat 123

/-- Right brace character (written via its code point). -/
def rbrace : Char := Char.ofNat 125

/-- Lookup in a JS Map modelled as an association list. -/
def mget {α : Type} (m : List (String × α)) (k : String) : Option α :=
  match m with
  | [] => none
  | (k', v) :: rest => if k' = k then some v else mget rest k

/-- Key-membership test of a JS Map. -/
def mhas {α : Type} (m : List (String × α)) (k : String) : Bool :=
  (mget m k).isSome

/-- JS Map.set: replaces the value in place when the key exists, otherwise
appends the new entry, preserving insertion order. -/
def mset {α : Type} (m : List (String × α)) (k : String) (v : α) :
    List (String × α) :=
  match m with
  | [] => [(k, v)]
  | (k', v') :: rest =>
    if k' = k then (k, v) :: rest else (k', v') :: mset rest k v

/-- JS Map.delete: removes the entry with the given key. -/
def mdel {α : Type} (m : List (String × α)) (k : String) :
    List (String × α) :=
  match m with
  | [] => []
  | (k', v') :: rest => if k' = k then rest else (k', v') :: mdel rest k

/-- Continuation-byte test of the UTF-8 format. -/
def isCont (b : Nat) : Bool := 0x80 ≤ b ∧ b ≤ 0xBF

/-- The replacement character emitted by a lossy text decoder. -/
def replChar : Char := '�'

/-- UTF-8 encoding of one Unicode scalar value, by code-point range. -/
def utf8EncodeCharNat (c : Nat) : List Nat :=
  if c < 0x80 then [c]
  else if c < 0x800 then [0xC0 + c / 64, 0x80 + c % 64]
  else if c < 0x10000 then
    [0xE0 + c / 4096, 0x80 + c / 64 % 64, 0x80 + c % 64]
  else
    [0xF0 + c / 262144, 0x80 + c / 4096 % 64, 0x80 + c / 64 % 64,
      0x80 + c % 64]

/-- Model of TextEncoder.encode: UTF-8 bytes of a string. -/
def strToBytes (s : String) : List Nat :=
  s.data.flatMap (fun c => utf8EncodeCharNat c.toNat)

/-- One decoding step of the lossy UTF-8 decoder: classify the lead byte,
consume the continuation bytes of a valid sequence (no overlongs, no
surrogates, at most U+10FFFF) and produce its scalar, or produce the
replacement character and resynchronise after the offending lead byte. -/
def utf8DecodeStep (b : Nat) (rest : List Nat) : Char × List Nat :=
  if b < 0x80 then (Char.ofNat b, rest)
  else if 0xC2 ≤ b ∧ b ≤ 0xDF then
    match rest with
    | b1 :: r =>
      if isCont b1 then (Char.ofNat ((b - 0xC0) * 64 + (b1 - 0x80)), r)
      else (replChar, b1 :: r)
    | [] => (replChar, [])
  else if 0xE0 ≤ b ∧ b ≤ 0xEF then
    match rest with
    | b1 :: b2 :: r =>
      if isCont b1 ∧ isCont b2 ∧
          0x800 ≤ (b - 0xE0) * 4096 + (b1 - 0x80) * 64 + (b2 - 0x80) ∧
          ¬(0xD800 ≤ (b - 0xE0) * 4096 + (b1 - 0x80) * 64 + (b2 - 0x80) ∧
            (b - 0xE0) * 4096 + (b1 - 0x80) * 64 + (b2 - 0x80) ≤ 0xDFFF) then
        (Char.ofNat ((b - 0xE0) * 4096 + (b1 - 0x80) * 64 + (b2 - 0x80)), r)
      else (replChar, b1 :: b2 :: r)
    | [b1] => (replChar, [b1])
    | [] => (replChar, [])
  else if 0xF0 ≤ b ∧ b ≤ 0xF4 then
    match rest with
    | b1 :: b2 :: b3 :: r =>
      if isCont b1 ∧ isCont b2 ∧ isCont b3 ∧
          0x10000 ≤ (b - 0xF0) * 262144 + (b1 - 0x80) * 4096 +
            (b2 - 0x80) * 64 + (b3 - 0x80) ∧
          (b - 0xF0) * 262144 + (b1 - 0x80) * 4096 + (b2 - 0x80) * 64 +
            (b3 - 0x80) ≤ 0x10FFFF then
        (Char.ofNat ((b - 0xF0) * 262144 + (b1 - 0x80) * 4096 +
            (b2 - 0x80) * 64 + (b3 - 0x80)), r)
      else (replChar, b1 :: b2 :: b3 :: r)
    | [b1, b2] => (replChar, [b1, b2])
    | [b1] => (replChar, [b1])
    | [] => (replChar, [])
  else (replChar, rest)

/-- Fuel-driven driver of the decoder; the fuel bounds the number of bytes
left and only exists to make the recursion structural (every step consumes
at least one byte). -/
def utf8DecodeGo : Nat → List Nat → List Char
  | _, [] => []
  | 0, _ :: _ => []
  | fuel + 1, b :: rest =>
    (utf8DecodeStep b rest).1 :: utf8DecodeGo fuel (utf8DecodeStep b rest).2

/-- Model of TextDecoder.decode without the fatal option: total lossy UTF-8
decoding.  Valid sequences decode exactly; invalid bytes produce the
replacement character.  It never fails, exactly like the decoder the code
instantiates. -/
def utf8DecodeList (bs : List Nat) : List Char := utf8DecodeGo bs.length bs

/-- Model of uint8ArrayToString in src/utils/files.ts: lossy UTF-8 decode of
a byte array into a string (never throws). -/
def bytesToStr (bs : List Nat) : String := ⟨utf8DecodeList bs⟩

/-- Strict UTF-8 validity of a byte list (no overlongs, no surrogates,
scalar values at most U+10FFFF).  Used to express what a byte sequence that
fails UTF-8 decoding is. -/
def isValidUtf8 : List Nat → Bool
  | [] => true
  | b :: rest =>
    if b < 0x80 then isValidUtf8 rest
    else if 0xC2 ≤ b ∧ b ≤ 0xDF then
      match rest with
      | b1 :: r => isCont b1 && isValidUtf8 r
      | [] => false
    else if 0xE0 ≤ b ∧ b ≤ 0xEF then
      match rest with
      | b1 :: b2 :: r =>
        (isCont b1 && isCont b2 &&
          decide (0x800 ≤ (b - 0xE0) * 4096 + (b1 - 0x80) * 64 + (b2 - 0x80)) &&
          !(decide (0xD800 ≤ (b - 0xE0) * 4096 + (b1 - 0x80) * 64 + (b2 - 0x80)) &&
            decide ((b - 0xE0) * 4096 + (b1 - 0x80) * 64 + (b2 - 0x80) ≤ 0xDFFF)))
          && isValidUtf8 r
      | _ => false
    else if 0xF0 ≤ b ∧ b ≤ 0xF4 then
      match rest with
      | b1 :: b2 :: b3 :: r =>
        (isCont b1 && isCont b2 && isCont b3 &&
          decide (0x10000 ≤ (b - 0xF0) * 262144 + (b1 - 0x80) * 4096 +
            (b2 - 0x80) * 64 + (b3 - 0x80)) &&
          decide ((b - 0xF0) * 262144 + (b1 - 0x80) * 4096 + (b2 - 0x80) * 64 +
            (b3 - 0x80) ≤ 0x10FFFF)) && isValidUtf8 r
      | _ => false
    else false

/-- Removal of trailing whitespace (structural formulation). -/
def trimEnd : List Char → List Char
  | [] => []
  | c :: rest =>
    match trimEnd rest with
    | [] => if jsWs c then [] else [c]
    | r => c :: r

/-- Model of the String.trim of JavaScript on character lists. -/
def trimChars (l : List Char) : List Char := trimEnd (l.dropWhile jsWs)

/-- Model of the String.trim of JavaScript on strings. -/
def trimStr (s : String) : String := ⟨trimChars s.data⟩

/-- Model of String.split with separator "/" (JS semantics: every slash is a
separator, empty segments are kept). -/
def splitSlash (l : List Char) : List (List Char) :=
  match l with
  | [] => [[]]
  | c :: rest =>
    if c = '/' then [] :: splitSlash rest
    else
      match splitSlash rest with
      | [] => [[c]]
      | p :: ps => (c :: p) :: ps

/-- Entry-name splitting used when grouping archive entries. -/
def nameParts (s : String) : List String := (splitSlash s.data).map String.mk

/-- Lookbehind test of the guid pattern: whether the character before the
current position (if any) is hexadecimal. -/
def hexO : Option Char → Bool
  | none => false
  | some c => isHexDigit c

/-- Lookahead test of the guid pattern: whether the character at the head of
the remaining text (if any) is hexadecimal. -/
def lookaheadHex : List Char → Bool
  | [] => false
  | c :: _ => isHexDigit c

/-- Fuel-driven scanner of the global boundary-safe replacement; the fuel is
kept equal to the length of the remaining subject (a match consumes the
matched length, a non-match one character), making the recursion structural.
-/
def replaceOccGo (old new : List Char) : Nat → Option Char → List Char → List Char
  | _, _, [] => []
  | 0, _, _ :: _ => []
  | fuel + 1, prev, c :: rest =>
    if (old.isPrefixOf (c :: rest) && !hexO prev &&
        !lookaheadHex ((c :: rest).drop old.length) && !old.isEmpty) = true then
      new ++ replaceOccGo old new fuel old.getLast? ((c :: rest).drop old.length)
    else c :: replaceOccGo old new fuel (some c) rest

/-- Global regex replacement of the boundary-safe guid pattern (oldGuid with
negative hex lookbehind and lookahead, flag g), scanning left to right over
the subject; after a replacement the scan resumes right after the matched
text, whose last character becomes the lookbehind character, as in the JS
engine.  Guids are nonempty, so the empty-pattern edge case of the JS engine
is not modelled. -/
def replaceOcc (old new : List Char) (prev : Option Char) (l : List Char) :
    List Char :=
  replaceOccGo old new l.length prev l

/-- Existence of a boundary-safe match, modelling RegExp.test of the same
pattern on the same subject. -/
def containsOcc (old : List Char) : Option Char → List Char → Bool
  | _, [] => false
  | prev, c :: rest =>
    (old.isPrefixOf (c :: rest) && !hexO prev &&
      !lookaheadHex ((c :: rest).drop old.length) && !old.isEmpty) ||
      containsOcc old (some c) rest

/-- One field pass of replaceGuidReferences: decode the bytes, test the
pattern, and only when it matches store back the re-encoded replacement,
otherwise keep the exact original bytes. -/
def rewriteField (old new : List Char) (bytes : List Nat) : List Nat :=
  let content := (bytesToStr bytes).data
  if containsOcc old none content then strToBytes ⟨replaceOcc old new none content⟩
  else bytes

/-- An extracted archive entry, as produced by extractTarGz. -/
structure TarGzEntry where
  name : String
  data : List Nat
  isDirectory : Bool
deriving DecidableEq

/-- Unity asset record of src/unitypackage.ts. -/
structure UnityAsset where
  guid : String
  assetPath : String
  assetData : List Nat
  metaData : Option (List Nat)
  previewData : Option (List Nat)
deriving DecidableEq

/-- Per-guid entry group built while importing. -/
structure GuidGroup where
  asset : Option TarGzEntry
  meta : Option TarGzEntry
  pathname : Option TarGzEntry
  preview : Option TarGzEntry
deriving DecidableEq

/-- The UnityPackage store: the asset map and the two derived indexes. -/
structure UnityPackage where
  assets : List (String × UnityAsset)
  guidToPath : List (String × String)
  pathToGuid : List (String × String)
deriving DecidableEq

/-- Per-asset body of the replaceGuidReferences loop: the payload pass and
then the sidecar pass.  The catch branches of the source are dead because the
decoder is total, so no skip can occur. -/
def rewriteAsset (old new : List Char) (a : UnityAsset) : UnityAsset :=
  let a1 : UnityAsset := { a with assetData := rewriteField old new a.assetData }
  match a1.metaData with
  | some md => { a1 with metaData := some (rewriteField old new md) }
  | none => a1

/-- The replaceGuidReferences loop over all assets of the store's map: each
asset value is rewritten in place (payload pass then sidecar pass), keys are
untouched. -/
def UnityPackage.replaceGuidReferencesAssets (oldGuid newGuid : String)
    (assets : List (String × UnityAsset)) : List (String × UnityAsset) :=
  assets.map (fun pa => (pa.1, rewriteAsset oldGuid.data newGuid.data pa.2))

/-- Model of String.split on carriage-return-optional newlines. -/
def splitLinesRN (l : List Char) : List (List Char) :=
  match l with
  | [] => [[]]
  | '\r' :: '\n' :: rest => [] :: splitLinesRN rest
  | '\n' :: rest => [] :: splitLinesRN rest
  | c :: rest =>
    match splitLinesRN rest with
    | [] => [[c]]
    | p :: ps => (c :: p) :: ps

/-- The ECMAScript LineTerminator characters that multiline anchors
recognise: line feed, carriage return, line separator and paragraph
separator. -/
def jsLineTerm (c : Char) : Bool :=
  c = '\n' || c = '\r' || c = Char.ofNat 0x2028 || c = Char.ofNat 0x2029

/-- Match test of the anchored multiline pattern at the current position:
the pattern text starts here and the end-of-line anchor holds, the position
after it being the end of the subject or a line terminator. -/
def lineAnchorEnd (pat t : List Char) : Bool :=
  pat.isPrefixOf t &&
    (match t.drop pat.length with
     | [] => true
     | c :: _ => jsLineTerm c)

/-- Scanner of the anchored multiline replace without the g flag: the
pattern is tried at the subject start and directly after every line
terminator, leftmost position first; the first match is replaced by the
replacement text and the scan stops. -/
def replaceLineGo (pat rep : List Char) : List Char → Bool → List Char
  | [], _ => []
  | c :: rest, atStart =>
    if atStart && lineAnchorEnd pat (c :: rest) then
      rep ++ (c :: rest).drop pat.length
    else c :: replaceLineGo pat rep rest (jsLineTerm c)

/-- Whether the anchored multiline pattern matches somewhere in the
subject. -/
def hasLineMatch (pat : List Char) : List Char → Bool → Bool
  | [], _ => false
  | c :: rest, atStart =>
    (atStart && lineAnchorEnd pat (c :: rest))
      || hasLineMatch pat rest (jsLineTerm c)

/-- Model of the metaContent.replace with the anchored multiline pattern
guid-colon-oldGuid (no g flag): the anchors match at the subject boundaries
and at every line terminator, carriage return included, and the first
anchored occurrence of the guid line is replaced, the rest of the text
untouched. -/
def replaceGuidLine (oldGuid newGuid : String) (content : String) : String :=
  ⟨replaceLineGo ("guid: " ++ oldGuid).data ("guid: " ++ newGuid).data
    content.data true⟩

/-- Model of UnityPackage.renameAsset: returns the boolean result of the
source together with the store at exit. -/
def UnityPackage.renameAsset (S : UnityPackage) (oldAssetPath newAssetPath : String) :
    Bool × UnityPackage :=
  match mget S.assets oldAssetPath with
  | none => (false, S)
  | some asset =>
    let assets1 := mdel S.assets oldAssetPath
    let asset1 : UnityAsset := { asset with assetPath := newAssetPath }
    let assets2 := mset assets1 newAssetPath asset1
    let pathToGuid1 := mset (mdel S.pathToGuid oldAssetPath) newAssetPath asset1.guid
    let guidToPath1 := mset S.guidToPath asset1.guid newAssetPath
    (true, { assets := assets2, guidToPath := guidToPath1, pathToGuid := pathToGuid1 })

/-- Model of UnityPackage.replaceAssetGuid.  The optional newGuid argument
keeps the JS falsy test (the empty string also triggers generation); the
otherwise generated random guid is passed in as the gen argument to keep the
model executable.  Errors carry the store live at the throw so that
unchanged-on-error is expressible; the boolean results carry the store at the
return. -/
def UnityPackage.replaceAssetGuid (S : UnityPackage) (assetPath : String)
    (newGuid : Option String) (gen : String) :
    Except (String × UnityPackage) (Bool × UnityPackage) :=
  match mget S.assets assetPath with
  | none => .ok (false, S)
  | some asset =>
    let oldGuid := asset.guid
    let targetGuid :=
      match newGuid with
      | some g => if g = "" then gen else g
      | none => gen
    if mhas S.guidToPath targetGuid then
      .error ("GUID '" ++ targetGuid ++ "' is already in use", S)
    else
      let asset1 : UnityAsset := { asset with guid := targetGuid }
      let S1 : UnityPackage :=
        { assets := mset S.assets assetPath asset1,
          guidToPath := mset (mdel S.guidToPath oldGuid) targetGuid assetPath,
          pathToGuid := mset S.pathToGuid assetPath targetGuid }
      let S2 : UnityPackage :=
        match asset1.metaData with
        | some md =>
          let asset2 : UnityAsset :=
            { asset1 with
                metaData := some (strToBytes
                  (replaceGuidLine oldGuid targetGuid (bytesToStr md))) }
          { S1 with assets := mset S1.assets assetPath asset2 }
        | none => S1
      let S3 : UnityPackage :=
        { S2 with assets := UnityPackage.replaceGuidReferencesAssets oldGuid targetGuid S2.assets }
      .ok (true, S3)

/-- Grouping step of fromArrayBuffer: one archive entry is classified by its
guid prefix and file kind and merged into the group map. -/
def groupStep (m : List (String × GuidGroup)) (e : TarGzEntry) :
    List (String × GuidGroup) :=
  let pathParts := nameParts e.name
  if 2 ≤ pathParts.length then
    let guid := pathParts.getD 0 ""
    let fileName := pathParts.getD 1 ""
    let group := (mget m guid).getD ⟨none, none, none, none⟩
    let group' :=
      if fileName = "asset" then { group with asset := some e }
      else if fileName = "asset.meta" then { group with meta := some e }
      else if fileName = "pathname" then { group with pathname := some e }
      else if fileName = "preview.png" then { group with preview := some e }
      else group
    mset m guid group'
  else m

/-- Asset-building step of fromArrayBuffer: a group with both pathname and
payload becomes an asset keyed by the decoded, trimmed path; incomplete
groups are dropped.  The catch branch of the source is dead because the
decoder is total. -/
def buildStep (acc : UnityPackage) (g : String × GuidGroup) : UnityPackage :=
  match g.2.pathname, g.2.asset with
  | some pn, some a =>
    let assetPath := trimStr (bytesToStr pn.data)
    let asset : UnityAsset :=
      { guid := g.1, assetPath := assetPath, assetData := a.data,
        metaData := (g.2.meta).map (·.data),
        previewData := (g.2.preview).map (·.data) }
    { assets := mset acc.assets assetPath asset,
      guidToPath := mset acc.guidToPath g.1 assetPath,
      pathToGuid := mset acc.pathToGuid assetPath g.1 }
  | _, _ => acc

/-- Re-keying of extracted files by name, as done by extractTarGz when it
builds its entry map from the parsed archive. -/
def extractEntriesMap (files : List TarGzEntry) : List (String × TarGzEntry) :=
  files.foldl (fun m f => mset m f.name f) []

/-- Core of UnityPackage.fromArrayBuffer, taking the decoded archive entry
list (the external decompression is a faithful transport): group the entries
by guid, then build the asset and index maps. -/
def UnityPackage.fromEntries (files : List TarGzEntry) : UnityPackage :=
  let entries := extractEntriesMap files
  let groups := (entries.map (·.2)).foldl groupStep []
  groups.foldl buildStep ⟨[], [], []⟩

/-- Entry-map construction of UnityPackage.export: for each asset in map
order, the pathname, payload and optional sidecar and preview entries are
inserted under guid-prefixed names. -/
def UnityPackage.exportEntriesMap (S : UnityPackage) :
    List (String × TarGzEntry) :=
  (S.assets.map (·.2)).foldl (fun entries asset =>
    let guid := asset.guid
    let e1 := mset entries (guid ++ "/pathname")
      ⟨guid ++ "/pathname", strToBytes asset.assetPath, false⟩
    let e2 := mset e1 (guid ++ "/asset") ⟨guid ++ "/asset", asset.assetData, false⟩
    let e3 :=
      match asset.metaData with
      | some md => mset e2 (guid ++ "/asset.meta") ⟨guid ++ "/asset.meta", md, false⟩
      | none => e2
    let e4 :=
      match asset.previewData with
      | some pd => mset e3 (guid ++ "/preview.png") ⟨guid ++ "/preview.png", pd, false⟩
      | none => e3
    e4) []

/-- The file list handed to the external compressor by export. -/
def UnityPackage.exportFiles (S : UnityPackage) : List TarGzEntry :=
  (UnityPackage.exportEntriesMap S).map (·.2)

/-- Overwrite of a region of a zero-based buffer, modelling TypedArray.set. -/
def overwriteAt (buf : List Nat) (off : Nat) (src : List Nat) : List Nat :=
  buf.take off ++ src ++ buf.drop (off + src.length)

/-- UTF-16 code-unit length of a string, the JS string length. -/
def utf16Length (s : String) : Nat :=
  s.data.foldl (fun n c => n + if c.toNat < 0x10000 then 1 else 2) 0

/-- Model of addOriginalNameToGzip in src/utils/tar-gz.ts: allocate a
zero-filled buffer one name-length-plus-one longer, copy in the header with
the FNAME flag set on byte 3, the UTF-8 name at offset 10, and the remaining
input shifted right; position 10 plus name length keeps the zero fill and is
the null terminator. -/
def addOriginalNameToGzip (data : List Nat) (name : String) : List Nat :=
  let dataArray := data
  let header0 := dataArray.take 10
  let header := header0.set 3 (header0.getD 3 0 ||| 0x08)
  let result0 := List.replicate (dataArray.length + utf16Length name + 1) 0
  let r1 := overwriteAt result0 0 header
  let r2 := overwriteAt r1 header.length (strToBytes name)
  let r3 := overwriteAt r2 (header.length + utf16Length name + 1)
    (dataArray.drop header.length)
  r3

/-- Model of UnityPackage.export given the external compressor: compress the
entry values, then unconditionally inject the fixed original-name record. -/
def UnityPackage.exportBytes (S : UnityPackage)
    (compress : List TarGzEntry → List Nat) : List Nat :=
  addOriginalNameToGzip (compress (UnityPackage.exportFiles S)) "archtemp.tar"

/-- Keyframe record of src/unityanimation.ts; JS numbers are modelled as
rationals. -/
structure Keyframe where
  time : Rat
  value : Rat
  inSlope : Rat
  outSlope : Rat
  tangentMode : Int
  weightedMode : Int
  inWeight : Rat
  outWeight : Rat
deriving DecidableEq

/-- Float-curve record of src/unityanimation.ts. -/
structure FloatCurve where
  attr : String
  path : String
  keyframes : List Keyframe
  classID : Int
deriving DecidableEq

/-- The mutable state of the UnityAnimation editor that the modelled
operations touch: the animation name and the float-curve list. -/
structure UnityAnimation where
  animationName : String
  floatCurves : List FloatCurve
deriving DecidableEq

/-- Model of UnityAnimation.getCurve: first curve with both fields equal. -/
def UnityAnimation.getCurve (anim : UnityAnimation) (attr path : String) :
    Option FloatCurve :=
  anim.floatCurves.find? (fun c => c.attr == attr && c.path == path)

/-- Comparator of the keyframe sort, from the JS comparator on time. -/
def kfLe (a b : Keyframe) : Bool := decide (a.time ≤ b.time)

/-- In-place update of the first matching curve by appending the keyframe
and re-sorting (stable, ascending by time, as the JS in-place sort). -/
def addKfList : List FloatCurve → String → String → Keyframe → List FloatCurve
  | [], _, _, _ => []
  | c :: cs, attr, path, kf =>
    if c.attr == attr && c.path == path then
      { c with keyframes := (c.keyframes ++ [kf]).mergeSort kfLe } :: cs
    else c :: addKfList cs attr path kf

/-- Model of UnityAnimation.addKeyframe: append then sort on the found
curve, no-op when the curve is absent. -/
def UnityAnimation.addKeyframe (anim : UnityAnimation) (attr path : String)
    (kf : Keyframe) : UnityAnimation :=
  { anim with floatCurves := addKfList anim.floatCurves attr path kf }

/-- In-place replacement of the keyframes of the first matching curve. -/
def setKfFirst : List FloatCurve → String → String → List Keyframe → List FloatCurve
  | [], _, _, _ => []
  | c :: cs, attr, path, kfs =>
    if c.attr == attr && c.path == path then
      { c with keyframes := kfs } :: cs
    else c :: setKfFirst cs attr path kfs

/-- Model of UnityAnimation.addCurve: upsert by attribute and path. -/
def UnityAnimation.addCurve (anim : UnityAnimation) (curve : FloatCurve) :
    UnityAnimation :=
  match UnityAnimation.getCurve anim curve.attr curve.path with
  | some _ =>
    { anim with floatCurves :=
        setKfFirst anim.floatCurves curve.attr curve.path curve.keyframes }
  | none => { anim with floatCurves := anim.floatCurves ++ [curve] }

/-- Document splitter of parsePrefabComponents: split the text at every
line-start occurrence of three dashes followed by one whitespace character
(the separator, including that whitespace character, is consumed). -/
def splitDocsGo : Nat → List Char → Bool → List Char → List (List Char)
  | _, [], _, cur => [cur.reverse]
  | 0, _ :: _, _, cur => [cur.reverse]
  | fuel + 1, c :: rest, atStart, cur =>
    if atStart ∧ c = '-' then
      match rest with
      | c2 :: c3 :: c4 :: rest2 =>
        if c2 = '-' ∧ c3 = '-' ∧ jsWs c4 then
          cur.reverse :: splitDocsGo fuel rest2 (isTerm c4) []
        else splitDocsGo fuel (c2 :: c3 :: c4 :: rest2) (isTerm c) (c :: cur)
      | [c2, c3] => splitDocsGo fuel [c2, c3] (isTerm c) (c :: cur)
      | [c2] => splitDocsGo fuel [c2] (isTerm c) (c :: cur)
      | [] => splitDocsGo fuel [] (isTerm c) (c :: cur)
    else splitDocsGo fuel rest (isTerm c) (c :: cur)

/-- Split of the prefab text into documents. -/
def splitDocs (l : List Char) : List (List Char) := splitDocsGo l.length l true []

/-- Header matcher of parsePrefabComponents: the anchored pattern consisting
of the u-tag, a numeric type, an ampersand, a numeric file id, and a
carriage-return-optional newline; returns type digits, file-id digits and
the remaining content. -/
def parseHeader (d : List Char) : Option (List Char × List Char × List Char) :=
  match d with
  | '!' :: 'u' :: '!' :: rest =>
    let ty := rest.takeWhile isDigitCh
    if ty.isEmpty then none
    else
      match rest.drop ty.length with
      | ' ' :: '&' :: rest2 =>
        let fid := rest2.takeWhile isDigitCh
        if fid.isEmpty then none
        else
          match rest2.drop fid.length with
          | '\r' :: '\n' :: content => some (ty, fid, content)
          | '\n' :: content => some (ty, fid, content)
          | _ => none
      | _ => none
  | _ => none

/-- Substring containment, modelling String.includes. -/
def hasSubstr (pat : List Char) : List Char → Bool
  | [] => pat.isEmpty
  | c :: rest => pat.isPrefixOf (c :: rest) || hasSubstr pat rest

/-- Drop an expected literal from the front, or fail. -/
def dropLit (lit l : List Char) : Option (List Char) :=
  if lit.isPrefixOf l then some (l.drop lit.length) else none

/-- Attempt of the script-reference pattern at the current position: the
m-underscore-Script literal with braces, a nonempty digit run, the guid
separator, a nonempty hex run (the capture), and the type-3 closer.  The
greedy runs need no backtracking because the following literals start with
non-digit and non-hex characters. -/
def matchScriptAt (l : List Char) : Option (List Char) :=
  match dropLit ("m_Script: ".data ++ lbrace :: "fileID: ".data) l with
  | none => none
  | some r1 =>
    let ds := r1.takeWhile isDigitCh
    if ds.isEmpty then none
    else
      match dropLit ", guid: ".data (r1.drop ds.length) with
      | none => none
      | some r2 =>
        let hs := r2.takeWhile isHexDigit
        if hs.isEmpty then none
        else
          match dropLit (", type: 3".data ++ [rbrace]) (r2.drop hs.length) with
          | none => none
          | some _ => some hs

/-- Leftmost match of the script-reference pattern over the content. -/
def findScriptGuid : List Char → Option (List Char)
  | [] => none
  | c :: rest =>
    match matchScriptAt (c :: rest) with
    | some g => some g
    | none => findScriptGuid rest

/-- One property line: exactly two spaces, a nonempty word key, a colon and
one space, and a nonempty terminator-free value that is stored trimmed. -/
def parsePropLine (line : List Char) : Option (String × String) :=
  match line with
  | ' ' :: ' ' :: rest =>
    let key := rest.takeWhile isWordChar
    if key.isEmpty then none
    else
      match rest.drop key.length with
      | ':' :: ' ' :: v =>
        if v.isEmpty ∨ v.any isTerm then none
        else some (⟨key⟩, ⟨trimChars v⟩)
      | _ => none
  | _ => none

/-- Property scan of parseMonoBehaviourComponent: lines after the marker
line contribute their matching key-value pairs (later writes win in place,
as for a JS object). -/
def parseProps (lines : List (List Char)) (inside : Bool)
    (acc : List (String × String)) : List (String × String) :=
  match lines with
  | [] => acc
  | line :: rest =>
    if hasSubstr "MonoBehaviour:".data line then parseProps rest true acc
    else if !inside then parseProps rest inside acc
    else
      match parsePropLine line with
      | some (k, v) => parseProps rest inside (mset acc k v)
      | none => parseProps rest inside acc

/-- Prefab component view of src/unityprefab.ts. -/
structure PrefabComponent where
  fileId : String
  unityType : String
  scriptGuid : Option String
  properties : List (String × String)
  rawYaml : String
deriving DecidableEq

/-- Model of UnityPrefab.parseMonoBehaviourComponent. -/
def UnityPrefab.parseMonoBehaviourComponent (fileId unityType : String)
    (content : List Char) (rawYaml : List Char) : PrefabComponent :=
  { fileId := fileId, unityType := unityType,
    scriptGuid := (findScriptGuid content).map String.mk,
    properties := parseProps (splitLinesRN content) false [],
    rawYaml := ⟨rawYaml⟩ }

/-- Model of UnityPrefab.parsePrefabComponents: split into documents, drop
blank ones, keep script components with the marker. -/
def UnityPrefab.parsePrefabComponents (yamlContent : String) :
    List PrefabComponent :=
  let documents := (splitDocs yamlContent.data).filter
    (fun d => 0 < (trimChars d).length)
  documents.filterMap (fun doc =>
    match parseHeader doc with
    | none => none
    | some (ty, fid, content) =>
      if ty = "114".data ∧ hasSubstr "MonoBehaviour:".data content then
        some (UnityPrefab.parseMonoBehaviourComponent ⟨fid⟩ ⟨ty⟩ content doc)
      else none)

/-- Backtracking search of the greedy leading whitespace of the key-line
pattern: the largest width within the whitespace run after which the key and
colon literal follows. -/
def wSearch (keyc : List Char) (s : List Char) : Nat → Option Nat
  | 0 => none
  | w + 1 =>
    if keyc.isPrefixOf (s.drop (w + 1)) then some (w + 1)
    else wSearch keyc s w

/-- Attempt of the key-line pattern at a line start: nonempty whitespace,
the key and a colon (the capture), greedy whitespace, then the greedy
terminator-free remainder up to the line end.  Returns the whole match and
the capture. -/
def tryKeyMatchAt (key : List Char) (s : List Char) :
    Option (List Char × List Char) :=
  match wSearch (key ++ [':']) s (s.takeWhile jsWs).length with
  | none => none
  | some w =>
    let afterKey := s.drop (w + key.length + 1)
    let w2 := (afterKey.takeWhile jsWs).length
    let v := (afterKey.drop w2).takeWhile (fun c => !isTerm c)
    some (s.take (w + key.length + 1 + w2 + v.length), s.take w ++ key ++ [':'])

/-- Scan of the anchored multiline key-line pattern over the document: the
pattern is attempted at every line start, leftmost first. -/
def firstKeyMatchGo (key : List Char) (t : List Char) (atStart : Bool) :
    Option (List Char × List Char) :=
  match t with
  | [] => none
  | c :: rest =>
    match (if atStart then tryKeyMatchAt key (c :: rest) else none) with
    | some m => some m
    | none => firstKeyMatchGo key rest (isTerm c)

/-- First match of the key-line pattern, modelling RegExp.exec. -/
def firstKeyMatch (key : List Char) (t : List Char) :
    Option (List Char × List Char) :=
  firstKeyMatchGo key t true

/-- Model of String.replace with a plain string pattern: the first substring
occurrence is replaced, scanning from the left; absence leaves the text
unchanged. -/
def replaceFirstSub (t pat rep : List Char) : List Char :=
  if pat.isPrefixOf t then rep ++ t.drop pat.length
  else
    match t with
    | [] => []
    | c :: rest => c :: replaceFirstSub rest pat rep

/-- Model of UnityPrefab.updateYamlProperties: for each new property in
order, find the first key-line match and string-replace that matched text
with the captured prefix, one space and the new value; keys without a match
are skipped silently. -/
def UnityPrefab.updateYamlProperties (yamlContent : String)
    (newProperties : List (String × String)) : String :=
  ⟨newProperties.foldl (fun y kv =>
    match firstKeyMatch kv.1.data y with
    | none => y
    | some (m0, m1) => replaceFirstSub y m0 (m1 ++ ' ' :: kv.2.data))
    yamlContent.data⟩

/-- Model of UnityPrefab.updateComponentProperties: over the components of
the original document, every component with the target script guid has its
raw span rewritten and string-replaced inside the current document text. -/
def UnityPrefab.updateComponentProperties (yamlContent : String)
    (targetScriptGuid : String) (newProperties : List (String × String)) :
    String :=
  (UnityPrefab.parsePrefabComponents yamlContent).foldl (fun cur comp =>
    if comp.scriptGuid = some targetScriptGuid then
      ⟨replaceFirstSub cur.data comp.rawYaml.data
        (UnityPrefab.updateYamlProperties comp.rawYaml newProperties).data⟩
    else cur) yamlContent

/-- Store well-formedness established by a successful import: map keys equal
the asset-path fields, paths are trim-fixed, guids contain no slash, and
both paths and guids are duplicate-free. -/
def storeWF (S : UnityPackage) : Bool :=
  S.assets.all (fun pa =>
    pa.2.assetPath = pa.1 && trimStr pa.1 = pa.1 && !pa.2.guid.data.contains '/')
  && decide ((S.assets.map (·.1)).Nodup)
  && decide ((S.assets.map (·.2.guid)).Nodup)

/-- The four-shape subject text of the boundary-safety property: a bare
guid occurrence, one with a hex character prefixed, one with a hex character
suffixed, and one enclosed by hex characters, separated by spaces. -/
def fourShape (og : List Char) : List Char :=
  og ++ ' ' :: (('f' :: og) ++ ' ' :: ((og ++ ['f']) ++ ' ' ::
    (('f' :: (og ++ ['f'])) ++ [])))

/-- The expected rewriting of the four-shape text: exactly the bare
occurrence is replaced. -/
def fourShapeRes (og ng : List Char) : List Char :=
  ng ++ ' ' :: (('f' :: og) ++ ' ' :: ((og ++ ['f']) ++ ' ' ::
    (('f' :: (og ++ ['f'])) ++ [])))

/-- The association-list block of archive entries that export emits for one
asset, in emission order: pathname, payload, then the optional sidecar and
preview entries, each keyed by its guid-prefixed name. -/
def entryBlock (a : UnityAsset) : List (String × TarGzEntry) :=
  [(a.guid ++ "/pathname",
      ⟨a.guid ++ "/pathname", strToBytes a.assetPath, false⟩),
   (a.guid ++ "/asset", ⟨a.guid ++ "/asset", a.assetData, false⟩)]
  ++ (match a.metaData with
      | some md => [(a.guid ++ "/asset.meta",
          ⟨a.guid ++ "/asset.meta", md, false⟩)]
      | none => [])
  ++ (match a.previewData with
      | some pd => [(a.guid ++ "/preview.png",
          ⟨a.guid ++ "/preview.png", pd, false⟩)]
      | none => [])

/-- The archive files of one asset's export block. -/
def fileBlock (a : UnityAsset) : List TarGzEntry :=
  (entryBlock a).map (·.2)

/-- The entry group that import reassembles for one exported asset. -/
def groupOf (a : UnityAsset) : GuidGroup :=
  { asset := some ⟨a.guid ++ "/asset", a.assetData, false⟩,
    meta := a.metaData.map (fun md => ⟨a.guid ++ "/asset.meta", md, false⟩),
    pathname := some ⟨a.guid ++ "/pathname", strToBytes a.assetPath, false⟩,
    preview := a.previewData.map
      (fun pd => ⟨a.guid ++ "/preview.png", pd, false⟩) }

/-! ### Association-map lemmas -/

theorem mget_mset_self {α : Type} (m : List (String × α)) (k : String) (v : α) :
    mget (mset m k v) k = some v := by
  induction m with
  | nil => simp [mset, mget]
  | cons p rest ih =>
    obtain ⟨pk, pv⟩ := p
    by_cases h : pk = k
    · simp [mset, mget, h]
    · simp [mset, mget, h, ih]

theorem mget_mset_ne {α : Type} (m : List (String × α)) (k k' : String) (v : α)
    (h : k ≠ k') : mget (mset m k v) k' = mget m k' := by
  induction m with
  | nil => simp [mset, mget, h]
  | cons p rest ih =>
    obtain ⟨pk, pv⟩ := p
    by_cases hp : pk = k
    · subst hp
      simp [mset, mget, h]
    · simp [mset, mget, hp, ih]

theorem mget_eq_none_iff {α : Type} (m : List (String × α)) (k : String) :
    mget m k = none ↔ k ∉ m.map (·.1) := by
  induction m with
  | nil => simp [mget]
  | cons p rest ih =>
    obtain ⟨pk, pv⟩ := p
    by_cases hp : pk = k
    · subst hp; simp [mget]
    · simp only [mget, if_neg hp, List.map_cons, List.mem_cons]
      rw [ih]
      constructor
      · intro h hor
        rcases hor with he | hm
        · exact hp he.symm
        · exact h hm
      · intro h hm
        exact h (Or.inr hm)

theorem mset_fresh {α : Type} (m : List (String × α)) (k : String) (v : α)
    (h : mget m k = none) : mset m k v = m ++ [(k, v)] := by
  induction m with
  | nil => simp [mset]
  | cons p rest ih =>
    obtain ⟨pk, pv⟩ := p
    by_cases hp : pk = k
    · simp [mget, hp] at h
    · simp only [mget, if_neg hp] at h
      simp [mset, hp, ih h]

theorem mget_append_left {α : Type} (m m' : List (String × α)) (k : String)
    (h : (mget m k).isSome) : mget (m ++ m') k = mget m k := by
  induction m with
  | nil => simp [mget] at h
  | cons p rest ih =>
    obtain ⟨pk, pv⟩ := p
    by_cases hp : pk = k
    · simp [mget, hp]
    · simp only [mget, if_neg hp] at h
      simp only [List.cons_append, mget, if_neg hp]
      exact ih h

theorem mget_append_right {α : Type} (m m' : List (String × α)) (k : String)
    (h : mget m k = none) : mget (m ++ m') k = mget m' k := by
  induction m with
  | nil => simp
  | cons p rest ih =>
    obtain ⟨pk, pv⟩ := p
    by_cases hp : pk = k
    · simp [mget, hp] at h
    · simp only [mget, if_neg hp] at h
      simp only [List.cons_append, mget, if_neg hp]
      exact ih h

theorem mset_mset_same {α : Type} (m : List (String × α)) (k : String) (v v' : α) :
    mset (mset m k v) k v' = mset m k v' := by
  induction m with
  | nil => simp [mset]
  | cons p rest ih =>
    obtain ⟨pk, pv⟩ := p
    by_cases hp : pk = k
    · simp [mset, hp]
    · simp [mset, hp, ih]

theorem mget_map_value {α β : Type} (f : α → β) (m : List (String × α)) (k : String) :
    mget (m.map (fun pa => (pa.1, f pa.2))) k = (mget m k).map f := by
  induction m with
  | nil => simp [mget]
  | cons p rest ih =>
    obtain ⟨pk, pv⟩ := p
    by_cases hp : pk = k
    · simp [mget, hp]
    · simp [mget, hp, ih]

theorem mget_mdel_self {α : Type} :
    ∀ (m : List (String × α)) (k : String), (m.map (·.1)).Nodup →
      mget (mdel m k) k = none
  | [], k, _ => by simp [mdel, mget]
  | (pk, pv) :: rest, k, hnd => by
    simp only [List.map_cons, List.nodup_cons] at hnd
    by_cases hp : pk = k
    · simp only [mdel, if_pos hp]
      rw [mget_eq_none_iff, ← hp]
      exact hnd.1
    · simp only [mdel, if_neg hp, mget, if_neg hp]
      exact mget_mdel_self rest k hnd.2

theorem mget_mdel_ne {α : Type} (m : List (String × α)) (k k' : String)
    (h : k ≠ k') : mget (mdel m k) k' = mget m k' := by
  induction m with
  | nil => simp [mdel]
  | cons p rest ih =>
    obtain ⟨pk, pv⟩ := p
    by_cases hp : pk = k
    · rw [hp]
      simp [mdel, mget, h]
    · simp [mdel, mget, hp, ih]

theorem mdel_length_present {α : Type} (m : List (String × α)) (k : String)
    (h : (mget m k).isSome) : (mdel m k).length + 1 = m.length := by
  induction m with
  | nil => simp [mget] at h
  | cons p rest ih =>
    obtain ⟨pk, pv⟩ := p
    by_cases hp : pk = k
    · simp [mdel, hp]
    · simp only [mget, if_neg hp] at h
      simp [mdel, hp, ih h]

theorem mget_none_of_mdel {α : Type} (m : List (String × α)) (k k' : String)
    (h : mget m k' = none) : mget (mdel m k) k' = none := by
  induction m with
  | nil => simp [mdel, mget]
  | cons p rest ih =>
    obtain ⟨pk, pv⟩ := p
    simp only [mget] at h
    by_cases hq : pk = k'
    · simp [hq] at h
    · by_cases hp : pk = k
      · simp only [mdel, if_pos hp]
        simpa [hq] using h
      · simp only [mdel, if_neg hp, mget, if_neg hq]
        exact ih (by simpa [hq] using h)

theorem mset_length_fresh {α : Type} (m : List (String × α)) (k : String) (v : α)
    (h : mget m k = none) : (mset m k v).length = m.length + 1 := by
  rw [mset_fresh m k v h]; simp

/-! ### UTF-8 round trip -/

theorem utf8DecodeStep_length (b : Nat) (rest : List Nat) :
    (utf8DecodeStep b rest).2.length ≤ rest.length := by
  unfold utf8DecodeStep
  repeat' split
  all_goals simp_all
  all_goals omega

theorem utf8DecodeGo_fuel : ∀ (f : Nat) (l : List Nat), l.length ≤ f →
    utf8DecodeGo f l = utf8DecodeGo l.length l
  | 0, [], _ => rfl
  | _ + 1, [], _ => rfl
  | 0, _ :: _, h => by simp at h
  | f + 1, b :: rest, h => by
    have hlen : rest.length ≤ f := by simpa using h
    have hstep := utf8DecodeStep_length b rest
    simp only [List.length_cons, utf8DecodeGo]
    congr 1
    rw [utf8DecodeGo_fuel f _ (le_trans hstep hlen),
      utf8DecodeGo_fuel rest.length _ hstep]
termination_by f _ _ => f
decreasing_by all_goals omega

theorem utf8DecodeList_cons (b : Nat) (rest : List Nat) :
    utf8DecodeList (b :: rest) =
      (utf8DecodeStep b rest).1 :: utf8DecodeList (utf8DecodeStep b rest).2 := by
  unfold utf8DecodeList
  simp only [List.length_cons, utf8DecodeGo]
  congr 1
  exact utf8DecodeGo_fuel rest.length _ (utf8DecodeStep_length b rest)

theorem utf8DecodeStep_ascii (b : Nat) (rest : List Nat) (h : b < 0x80) :
    utf8DecodeStep b rest = (Char.ofNat b, rest) := by
  unfold utf8DecodeStep
  rw [if_pos h]

theorem utf8DecodeStep_two (b b1 : Nat) (rest : List Nat)
    (h : 0xC2 ≤ b ∧ b ≤ 0xDF) (hc : isCont b1 = true) :
    utf8DecodeStep b (b1 :: rest) =
      (Char.ofNat ((b - 0xC0) * 64 + (b1 - 0x80)), rest) := by
  unfold utf8DecodeStep
  rw [if_neg (by omega), if_pos h]
  simp [hc]

theorem utf8DecodeStep_three (b b1 b2 : Nat) (rest : List Nat)
    (h : 0xE0 ≤ b ∧ b ≤ 0xEF)
    (hc1 : isCont b1 = true) (hc2 : isCont b2 = true)
    (hlo : 0x800 ≤ (b - 0xE0) * 4096 + (b1 - 0x80) * 64 + (b2 - 0x80))
    (hsur : ¬(0xD800 ≤ (b - 0xE0) * 4096 + (b1 - 0x80) * 64 + (b2 - 0x80) ∧
      (b - 0xE0) * 4096 + (b1 - 0x80) * 64 + (b2 - 0x80) ≤ 0xDFFF)) :
    utf8DecodeStep b (b1 :: b2 :: rest) =
      (Char.ofNat ((b - 0xE0) * 4096 + (b1 - 0x80) * 64 + (b2 - 0x80)), rest) := by
  unfold utf8DecodeStep
  rw [if_neg (by omega), if_neg (by omega), if_pos h]
  simp [hc1, hc2, hlo, hsur]

theorem utf8DecodeStep_four (b b1 b2 b3 : Nat) (rest : List Nat)
    (h : 0xF0 ≤ b ∧ b ≤ 0xF4)
    (hc1 : isCont b1 = true) (hc2 : isCont b2 = true) (hc3 : isCont b3 = true)
    (hlo : 0x10000 ≤ (b - 0xF0) * 262144 + (b1 - 0x80) * 4096 +
      (b2 - 0x80) * 64 + (b3 - 0x80))
    (hhi : (b - 0xF0) * 262144 + (b1 - 0x80) * 4096 + (b2 - 0x80) * 64 +
      (b3 - 0x80) ≤ 0x10FFFF) :
    utf8DecodeStep b (b1 :: b2 :: b3 :: rest) =
      (Char.ofNat ((b - 0xF0) * 262144 + (b1 - 0x80) * 4096 + (b2 - 0x80) * 64 +
        (b3 - 0x80)), rest) := by
  unfold utf8DecodeStep
  rw [if_neg (by omega), if_neg (by omega), if_neg (by omega), if_pos h]
  simp [hc1, hc2, hc3, hlo, hhi]

theorem utf8DecodeList_encodeChar (c : Char) (rest : List Nat) :
    utf8DecodeList (utf8EncodeCharNat c.toNat ++ rest) = c :: utf8DecodeList rest := by
  have hv : c.toNat < 0xd800 ∨ (0xdfff < c.toNat ∧ c.toNat < 0x110000) := c.valid
  by_cases h1 : c.toNat < 0x80
  · rw [utf8EncodeCharNat, if_pos h1, List.cons_append, List.nil_append,
      utf8DecodeList_cons, utf8DecodeStep_ascii _ _ h1]
    simp only [Char.ofNat_toNat]
  · by_cases h2 : c.toNat < 0x800
    · have hval : (0xC0 + c.toNat / 64 - 0xC0) * 64 + (0x80 + c.toNat % 64 - 0x80)
          = c.toNat := by omega
      rw [utf8EncodeCharNat, if_neg h1, if_pos h2, List.cons_append,
        List.cons_append, List.nil_append, utf8DecodeList_cons,
        utf8DecodeStep_two _ _ _ (by constructor <;> omega)
          (by simp only [isCont, decide_eq_true_eq]; constructor <;> omega)]
      rw [hval]
      simp only [Char.ofNat_toNat]
    · by_cases h3 : c.toNat < 0x10000
      · have hval : (0xE0 + c.toNat / 4096 - 0xE0) * 4096 +
            (0x80 + c.toNat / 64 % 64 - 0x80) * 64 + (0x80 + c.toNat % 64 - 0x80)
            = c.toNat := by omega
        rw [utf8EncodeCharNat, if_neg h1, if_neg h2, if_pos h3, List.cons_append,
          List.cons_append, List.cons_append, List.nil_append, utf8DecodeList_cons,
          utf8DecodeStep_three _ _ _ _ (by constructor <;> omega)
            (by simp only [isCont, decide_eq_true_eq]; constructor <;> omega)
            (by simp only [isCont, decide_eq_true_eq]; constructor <;> omega)
            (by rw [hval]; omega) (by rw [hval]; omega)]
        rw [hval]
        simp only [Char.ofNat_toNat]
      · have hval : (0xF0 + c.toNat / 262144 - 0xF0) * 262144 +
            (0x80 + c.toNat / 4096 % 64 - 0x80) * 4096 +
            (0x80 + c.toNat / 64 % 64 - 0x80) * 64 + (0x80 + c.toNat % 64 - 0x80)
            = c.toNat := by omega
        rw [utf8EncodeCharNat, if_neg h1, if_neg h2, if_neg h3, List.cons_append,
          List.cons_append, List.cons_append, List.cons_append, List.nil_append,
          utf8DecodeList_cons,
          utf8DecodeStep_four _ _ _ _ _ (by constructor <;> omega)
            (by simp only [isCont, decide_eq_true_eq]; constructor <;> omega)
            (by simp only [isCont, decide_eq_true_eq]; constructor <;> omega)
            (by simp only [isCont, decide_eq_true_eq]; constructor <;> omega)
            (by rw [hval]; omega) (by rw [hval]; omega)]
        rw [hval]
        simp only [Char.ofNat_toNat]

theorem utf8DecodeList_encodeList (l : List Char) :
    utf8DecodeList (l.flatMap (fun c => utf8EncodeCharNat c.toNat)) = l := by
  induction l with
  | nil => rfl
  | cons c rest ih =>
    rw [List.flatMap_cons, utf8DecodeList_encodeChar, ih]

theorem bytesToStr_strToBytes (s : String) : bytesToStr (strToBytes s) = s := by
  rw [bytesToStr, strToBytes, utf8DecodeList_encodeList]

/-! ### Boundary-safe rewriter lemmas -/

theorem drop_append_le {α : Type} :
    ∀ (l₁ l₂ : List α) (n : Nat), n ≤ l₁.length →
      (l₁ ++ l₂).drop n = l₁.drop n ++ l₂
  | _, _, 0, _ => by simp
  | [], _, n + 1, h => by simp at h
  | a :: l₁, l₂, n + 1, h => by
    simp only [List.cons_append, List.drop_succ_cons]
    exact drop_append_le l₁ l₂ n (by simpa using h)

theorem isPrefixOf_append_self (l r : List Char) : l.isPrefixOf (l ++ r) = true := by
  induction l with
  | nil => simp [List.isPrefixOf]
  | cons c cs ih => simp [List.isPrefixOf, ih]

theorem lookaheadHex_append (l R : List Char) (hne : l ≠ [])
    (hhex : ∀ c ∈ l, isHexDigit c = true) : lookaheadHex (l ++ R) = true := by
  obtain ⟨c, cs, rfl⟩ := List.exists_cons_of_ne_nil hne
  simp only [List.cons_append, lookaheadHex]
  exact hhex c (by simp)

theorem replaceOccGo_fuel (old new : List Char) :
    ∀ (f : Nat) (l : List Char) (prev : Option Char), l.length ≤ f →
      replaceOccGo old new f prev l = replaceOccGo old new l.length prev l
  | 0, [], _, _ => rfl
  | _ + 1, [], _, _ => rfl
  | 0, _ :: _, _, h => by simp at h
  | f + 1, c :: rest, prev, h => by
    have hlen : rest.length ≤ f := by simpa using h
    simp only [List.length_cons, replaceOccGo]
    by_cases hc : (old.isPrefixOf (c :: rest) && !hexO prev &&
        !lookaheadHex ((c :: rest).drop old.length) && !old.isEmpty) = true
    · rw [if_pos hc, if_pos hc]
      have hone : 1 ≤ old.length := by
        simp only [Bool.and_eq_true, Bool.not_eq_true'] at hc
        have := hc.2
        cases old
        · simp [List.isEmpty] at this
        · simp
      have hdrop : ((c :: rest).drop old.length).length ≤ rest.length := by
        simp only [List.length_drop, List.length_cons]
        omega
      rw [replaceOccGo_fuel old new f _ _ (le_trans hdrop hlen),
        replaceOccGo_fuel old new rest.length _ _ hdrop]
    · rw [if_neg hc, if_neg hc]
      rw [replaceOccGo_fuel old new f _ _ hlen]
termination_by f _ _ _ => f
decreasing_by all_goals omega

theorem replaceOcc_skip (old new : List Char) (prev : Option Char) (c : Char)
    (rest : List Char)
    (h : (old.isPrefixOf (c :: rest) && !hexO prev &&
      !lookaheadHex ((c :: rest).drop old.length) && !old.isEmpty) ≠ true) :
    replaceOcc old new prev (c :: rest) = c :: replaceOcc old new (some c) rest := by
  unfold replaceOcc
  simp only [List.length_cons, replaceOccGo]
  rw [if_neg h]

theorem replaceOcc_take (old new : List Char) (prev : Option Char) (c : Char)
    (rest : List Char)
    (h : (old.isPrefixOf (c :: rest) && !hexO prev &&
      !lookaheadHex ((c :: rest).drop old.length) && !old.isEmpty) = true) :
    replaceOcc old new prev (c :: rest) =
      new ++ replaceOcc old new old.getLast? ((c :: rest).drop old.length) := by
  unfold replaceOcc
  simp only [List.length_cons, replaceOccGo]
  rw [if_pos h]
  congr 1
  have hone : 1 ≤ old.length := by
    simp only [Bool.and_eq_true, Bool.not_eq_true'] at h
    have := h.2
    cases old
    · simp [List.isEmpty] at this
    · simp
  have hdrop : ((c :: rest).drop old.length).length ≤ rest.length := by
    simp only [List.length_drop, List.length_cons]
    omega
  exact replaceOccGo_fuel old new rest.length _ _ hdrop

theorem replaceOcc_skip_prevHex (old new : List Char) (prev : Option Char)
    (c : Char) (rest : List Char) (h : hexO prev = true) :
    replaceOcc old new prev (c :: rest) = c :: replaceOcc old new (some c) rest := by
  apply replaceOcc_skip
  simp [h]

theorem replaceOcc_skip_lookahead (old new : List Char) (prev : Option Char)
    (c : Char) (rest : List Char)
    (h : lookaheadHex ((c :: rest).drop old.length) = true) :
    replaceOcc old new prev (c :: rest) = c :: replaceOcc old new (some c) rest := by
  apply replaceOcc_skip
  simp [h]

theorem replaceOcc_match (old new : List Char) (prev : Option Char) (rest : List Char)
    (hne : old ≠ []) (hprev : hexO prev = false) (hla : lookaheadHex rest = false) :
    replaceOcc old new prev (old ++ rest) =
      new ++ replaceOcc old new old.getLast? rest := by
  obtain ⟨o, otl, rfl⟩ := List.exists_cons_of_ne_nil hne
  rw [List.cons_append, replaceOcc_take]
  · rw [← List.cons_append, List.drop_left]
  · rw [← List.cons_append, List.drop_left]
    simp [isPrefixOf_append_self, hprev, hla, List.isEmpty]

theorem hexO_getLast (old : List Char) (hne : old ≠ [])
    (hhex : ∀ c ∈ old, isHexDigit c = true) : hexO old.getLast? = true := by
  rw [List.getLast?_eq_getLast old hne]
  exact hhex _ (List.getLast_mem hne)

theorem replaceOcc_hexRun (old new : List Char) :
    ∀ (run : List Char) (prev : Option Char) (R : List Char),
      hexO prev = true → (∀ c ∈ run, isHexDigit c = true) →
      ∃ prev', hexO prev' = true ∧
        replaceOcc old new prev (run ++ R) = run ++ replaceOcc old new prev' R
  | [], prev, R, hp, _ => ⟨prev, hp, by simp⟩
  | c :: cs, prev, R, hp, hhex => by
    obtain ⟨prev', hp', heq⟩ := replaceOcc_hexRun old new cs (some c) R
      (by simpa [hexO] using hhex c (by simp))
      (fun x hx => hhex x (by simp [hx]))
    refine ⟨prev', hp', ?_⟩
    rw [List.cons_append, replaceOcc_skip_prevHex _ _ _ _ _ hp, heq, List.cons_append]

theorem replaceOcc_hexChunk (old new : List Char) (chunk : List Char)
    (prev : Option Char) (R : List Char) (hne : old ≠ [])
    (hlt : old.length < chunk.length)
    (hhex : ∀ c ∈ chunk, isHexDigit c = true) :
    ∃ prev', hexO prev' = true ∧
      replaceOcc old new prev (chunk ++ R) = chunk ++ replaceOcc old new prev' R := by
  obtain ⟨c, cs, rfl⟩ := List.exists_cons_of_ne_nil
    (by intro h; rw [h] at hlt; simp at hlt : chunk ≠ [])
  obtain ⟨o, otl, rfl⟩ := List.exists_cons_of_ne_nil hne
  have hle : otl.length ≤ cs.length := by
    simp only [List.length_cons] at hlt
    omega
  have hstep : replaceOcc (o :: otl) new prev (c :: (cs ++ R)) =
      c :: replaceOcc (o :: otl) new (some c) (cs ++ R) := by
    apply replaceOcc_skip_lookahead
    have hdrop : ((c :: (cs ++ R)).drop (o :: otl).length) =
        cs.drop otl.length ++ R := by
      simp only [List.length_cons, List.drop_succ_cons]
      exact drop_append_le cs R otl.length hle
    rw [hdrop]
    apply lookaheadHex_append
    · have : (cs.drop otl.length).length = cs.length - otl.length := by simp
      intro hnil
      rw [hnil] at this
      simp only [List.length_nil] at this
      simp only [List.length_cons] at hlt
      omega
    · intro x hx
      exact hhex x (by
        have := List.drop_subset otl.length cs hx
        simp [this])
  obtain ⟨prev', hp', heq⟩ := replaceOcc_hexRun (o :: otl) new cs (some c) R
    (by simpa [hexO] using hhex c (by simp)) (fun x hx => hhex x (by simp [hx]))
  refine ⟨prev', hp', ?_⟩
  rw [List.cons_append, hstep, heq, List.cons_append]

theorem containsOcc_head (old : List Char) (prev : Option Char) (rest : List Char)
    (hne : old ≠ []) (hprev : hexO prev = false) (hla : lookaheadHex rest = false) :
    containsOcc old prev (old ++ rest) = true := by
  obtain ⟨o, otl, rfl⟩ := List.exists_cons_of_ne_nil hne
  rw [List.cons_append, containsOcc]
  rw [← List.cons_append, List.drop_left]
  simp [isPrefixOf_append_self, hprev, hla, List.isEmpty]

theorem replaceOcc_nil (old new : List Char) (prev : Option Char) :
    replaceOcc old new prev [] = [] := rfl

theorem replaceOcc_fourShape (og ng : List Char)
    (h32 : og.length = 32) (hhex : ∀ c ∈ og, isHexDigit c = true) :
    replaceOcc og ng none (fourShape og) = fourShapeRes og ng := by
  have hne : og ≠ [] := by
    intro h; rw [h] at h32; simp at h32
  have hhex2 : ∀ c ∈ 'f' :: og, isHexDigit c = true := by
    intro c hc
    rcases List.mem_cons.mp hc with h | h
    · rw [h]; decide
    · exact hhex c h
  have hhex3 : ∀ c ∈ og ++ ['f'], isHexDigit c = true := by
    intro c hc
    rcases List.mem_append.mp hc with h | h
    · exact hhex c h
    · simp only [List.mem_singleton] at h; rw [h]; decide
  have hhex4 : ∀ c ∈ 'f' :: (og ++ ['f']), isHexDigit c = true := by
    intro c hc
    rcases List.mem_cons.mp hc with h | h
    · rw [h]; decide
    · exact hhex3 c h
  rw [fourShape, fourShapeRes]
  rw [replaceOcc_match og ng none _ hne rfl (by simp [lookaheadHex, isHexDigit])]
  rw [replaceOcc_skip_prevHex _ _ _ _ _ (hexO_getLast og hne hhex)]
  obtain ⟨p2, hp2, he2⟩ := replaceOcc_hexChunk og ng ('f' :: og) (some ' ')
    (' ' :: ((og ++ ['f']) ++ ' ' :: (('f' :: (og ++ ['f'])) ++ []))) hne
    (by simp [h32]) hhex2
  rw [he2]
  rw [replaceOcc_skip_prevHex _ _ _ _ _ hp2]
  obtain ⟨p3, hp3, he3⟩ := replaceOcc_hexChunk og ng (og ++ ['f']) (some ' ')
    (' ' :: (('f' :: (og ++ ['f'])) ++ [])) hne (by simp [h32]) hhex3
  rw [he3]
  rw [replaceOcc_skip_prevHex _ _ _ _ _ hp3]
  obtain ⟨p4, _, he4⟩ := replaceOcc_hexChunk og ng ('f' :: (og ++ ['f']))
    (some ' ') [] hne (by simp [h32]) hhex4
  rw [he4]
  rw [replaceOcc_nil]

theorem containsOcc_fourShape (og : List Char)
    (h32 : og.length = 32) :
    containsOcc og none (fourShape og) = true := by
  have hne : og ≠ [] := by
    intro h; rw [h] at h32; simp at h32
  rw [fourShape]
  exact containsOcc_head og none _ hne rfl (by simp [lookaheadHex, isHexDigit])

theorem rewriteField_fourShape (og ng : List Char)
    (h32 : og.length = 32) (hhex : ∀ c ∈ og, isHexDigit c = true) :
    rewriteField og ng (strToBytes ⟨fourShape og⟩) =
      strToBytes ⟨fourShapeRes og ng⟩ := by
  unfold rewriteField
  rw [bytesToStr_strToBytes]
  simp only [String.data]
  rw [if_pos (containsOcc_fourShape og h32), replaceOcc_fourShape og ng h32 hhex]

theorem rewriteAsset_assetData (o n : List Char) (a : UnityAsset) :
    (rewriteAsset o n a).assetData = rewriteField o n a.assetData := by
  rcases a with ⟨g, ap, ad, md, pd⟩
  cases md <;> rfl

theorem rewriteAsset_metaData (o n : List Char) (a : UnityAsset) :
    (rewriteAsset o n a).metaData = a.metaData.map (rewriteField o n) := by
  rcases a with ⟨g, ap, ad, md, pd⟩
  cases md <;> rfl

theorem rewriteAsset_guid (o n : List Char) (a : UnityAsset) :
    (rewriteAsset o n a).guid = a.guid := by
  rcases a with ⟨g, ap, ad, md, pd⟩
  cases md <;> rfl

theorem rewriteAsset_assetPath (o n : List Char) (a : UnityAsset) :
    (rewriteAsset o n a).assetPath = a.assetPath := by
  rcases a with ⟨g, ap, ad, md, pd⟩
  cases md <;> rfl

theorem rewriteAsset_previewData (o n : List Char) (a : UnityAsset) :
    (rewriteAsset o n a).previewData = a.previewData := by
  rcases a with ⟨g, ap, ad, md, pd⟩
  cases md <;> rfl

theorem rewriteField_no_occurrence (o n : List Char) (bytes : List Nat)
    (h : containsOcc o none (bytesToStr bytes).data = false) :
    rewriteField o n bytes = bytes := by
  unfold rewriteField
  simp [h]

/-- C3: for every pair of distinct 32-hex-char guids, running the reference
rewriter over a store whose asset payload decodes to a text holding the four
shapes (bare old guid, hex-prefixed, hex-suffixed, hex-enclosed), exactly
the bare occurrence is rewritten to the new guid and the other three shapes
remain byte-for-byte unchanged in the stored payload. -/
theorem replaceGuidReferences_boundary_safe
    (oldGuid newGuid : String)
    (h32 : oldGuid.data.length = 32)
    (hhex : ∀ c ∈ oldGuid.data, isHexDigit c = true)
    (hn32 : newGuid.data.length = 32)
    (hnhex : ∀ c ∈ newGuid.data, isHexDigit c = true)
    (hdist : oldGuid ≠ newGuid)
    (assets : List (String × UnityAsset)) (p : String) (a : UnityAsset)
    (hmem : (p, a) ∈ assets)
    (hpayload : a.assetData = strToBytes ⟨fourShape oldGuid.data⟩) :
    (p, rewriteAsset oldGuid.data newGuid.data a) ∈
      UnityPackage.replaceGuidReferencesAssets oldGuid newGuid assets ∧
    (rewriteAsset oldGuid.data newGuid.data a).assetData =
      strToBytes ⟨fourShapeRes oldGuid.data newGuid.data⟩ := by
  constructor
  · unfold UnityPackage.replaceGuidReferencesAssets
    exact List.mem_map.mpr ⟨(p, a), hmem, rfl⟩
  · rw [rewriteAsset_assetData, hpayload, rewriteField_fourShape _ _ h32 hhex]

theorem replaceGuidReferences_boundary_safe_witness :
    ("Assets/x.txt",
        rewriteAsset "0123456789abcdef0123456789abcdef".data
          "fedcba9876543210fedcba9876543210".data
          ⟨"0123456789abcdef0123456789abcdef", "Assets/x.txt",
            strToBytes ⟨fourShape "0123456789abcdef0123456789abcdef".data⟩,
            none, none⟩) ∈
      UnityPackage.replaceGuidReferencesAssets "0123456789abcdef0123456789abcdef"
        "fedcba9876543210fedcba9876543210"
        [("Assets/x.txt",
          ⟨"0123456789abcdef0123456789abcdef", "Assets/x.txt",
            strToBytes ⟨fourShape "0123456789abcdef0123456789abcdef".data⟩,
            none, none⟩)] ∧
    (rewriteAsset "0123456789abcdef0123456789abcdef".data
        "fedcba9876543210fedcba9876543210".data
        ⟨"0123456789abcdef0123456789abcdef", "Assets/x.txt",
          strToBytes ⟨fourShape "0123456789abcdef0123456789abcdef".data⟩,
          none, none⟩).assetData =
      strToBytes ⟨fourShapeRes "0123456789abcdef0123456789abcdef".data
        "fedcba9876543210fedcba9876543210".data⟩ :=
  replaceGuidReferences_boundary_safe
    "0123456789abcdef0123456789abcdef" "fedcba9876543210fedcba9876543210"
    (by decide) (by decide) (by decide) (by decide) (by decide)
    _ _ _ (List.mem_singleton.mpr rfl) rfl

/-- C6 (amended): during reference rewriting each asset's payload and
sidecar are handled independently (the new payload depends only on the old
payload bytes, the new sidecar only on the old sidecar bytes); a field whose
decoded text has no boundary-safe occurrence of the old guid keeps its exact
original bytes, and a field is re-encoded and stored back only when an
occurrence was found.  Decoding is total lossy decoding, so no field is ever
skipped as undecodable (the catch branches are dead); invalid UTF-8 bytes
are therefore not protected from re-encoding, see the counterexample. -/
theorem replaceGuidReferences_field_independent
    (oldGuid newGuid : String) (assets : List (String × UnityAsset))
    (p : String) (a : UnityAsset) (hmem : (p, a) ∈ assets) :
    ((p, rewriteAsset oldGuid.data newGuid.data a) ∈
        UnityPackage.replaceGuidReferencesAssets oldGuid newGuid assets ∧
      (rewriteAsset oldGuid.data newGuid.data a).assetData =
        rewriteField oldGuid.data newGuid.data a.assetData ∧
      (rewriteAsset oldGuid.data newGuid.data a).metaData =
        a.metaData.map (rewriteField oldGuid.data newGuid.data)) ∧
    (∀ bytes : List Nat,
      containsOcc oldGuid.data none (bytesToStr bytes).data = false →
        rewriteField oldGuid.data newGuid.data bytes = bytes) :=
  ⟨⟨List.mem_map.mpr ⟨(p, a), hmem, rfl⟩,
      rewriteAsset_assetData _ _ _, rewriteAsset_metaData _ _ _⟩,
    fun bytes h => rewriteField_no_occurrence _ _ bytes h⟩

theorem rewriteField_invalid_utf8_changed :
    isValidUtf8 (255 :: strToBytes " aaaaaaaaaaaaaaaaaaaaaaaaaaaaaaaa ") = false ∧
    rewriteField "aaaaaaaaaaaaaaaaaaaaaaaaaaaaaaaa".data
        "bbbbbbbbbbbbbbbbbbbbbbbbbbbbbbbb".data
        (255 :: strToBytes " aaaaaaaaaaaaaaaaaaaaaaaaaaaaaaaa ") ≠
      255 :: strToBytes " aaaaaaaaaaaaaaaaaaaaaaaaaaaaaaaa " := by
  decide

theorem replaceGuidReferences_field_independent_witness :
    (("p", rewriteAsset "aaaaaaaaaaaaaaaaaaaaaaaaaaaaaaaa".data
          "bbbbbbbbbbbbbbbbbbbbbbbbbbbbbbbb".data
          ⟨"aaaaaaaaaaaaaaaaaaaaaaaaaaaaaaaa", "p", [1, 2, 3], some [4, 5], none⟩) ∈
        UnityPackage.replaceGuidReferencesAssets "aaaaaaaaaaaaaaaaaaaaaaaaaaaaaaaa"
          "bbbbbbbbbbbbbbbbbbbbbbbbbbbbbbbb"
          [("p", ⟨"aaaaaaaaaaaaaaaaaaaaaaaaaaaaaaaa", "p", [1, 2, 3], some [4, 5], none⟩)] ∧
      (rewriteAsset "aaaaaaaaaaaaaaaaaaaaaaaaaaaaaaaa".data
          "bbbbbbbbbbbbbbbbbbbbbbbbbbbbbbbb".data
          ⟨"aaaaaaaaaaaaaaaaaaaaaaaaaaaaaaaa", "p", [1, 2, 3], some [4, 5], none⟩).assetData =
        rewriteField "aaaaaaaaaaaaaaaaaaaaaaaaaaaaaaaa".data
          "bbbbbbbbbbbbbbbbbbbbbbbbbbbbbbbb".data [1, 2, 3] ∧
      (rewriteAsset "aaaaaaaaaaaaaaaaaaaaaaaaaaaaaaaa".data
          "bbbbbbbbbbbbbbbbbbbbbbbbbbbbbbbb".data
          ⟨"aaaaaaaaaaaaaaaaaaaaaaaaaaaaaaaa", "p", [1, 2, 3], some [4, 5], none⟩).metaData =
        (some [4, 5]).map (rewriteField "aaaaaaaaaaaaaaaaaaaaaaaaaaaaaaaa".data
          "bbbbbbbbbbbbbbbbbbbbbbbbbbbbbbbb".data)) ∧
    rewriteField "aaaaaaaaaaaaaaaaaaaaaaaaaaaaaaaa".data
        "bbbbbbbbbbbbbbbbbbbbbbbbbbbbbbbb".data [104] = [104] :=
  ⟨(replaceGuidReferences_field_independent "aaaaaaaaaaaaaaaaaaaaaaaaaaaaaaaa"
      "bbbbbbbbbbbbbbbbbbbbbbbbbbbbbbbb" _ "p" _ (List.mem_singleton.mpr rfl)).1,
    (replaceGuidReferences_field_independent "aaaaaaaaaaaaaaaaaaaaaaaaaaaaaaaa"
      "bbbbbbbbbbbbbbbbbbbbbbbbbbbbbbbb"
      [("p", ⟨"aaaaaaaaaaaaaaaaaaaaaaaaaaaaaaaa", "p", [1, 2, 3], some [4, 5], none⟩)]
      "p" ⟨"aaaaaaaaaaaaaaaaaaaaaaaaaaaaaaaa", "p", [1, 2, 3], some [4, 5], none⟩
      (List.mem_singleton.mpr rfl)).2 [104] (by decide)⟩

theorem replaceLineGo_spec (pat rep : List Char) : ∀ (t : List Char)
    (atStart : Bool), hasLineMatch pat t atStart = true →
    ∃ pre post, t = pre ++ (pat ++ post) ∧
      replaceLineGo pat rep t atStart = pre ++ (rep ++ post) ∧
      (post = [] ∨ ∃ c rest2, post = c :: rest2 ∧ jsLineTerm c = true) := by
  intro t
  induction t with
  | nil => intro atStart h; simp [hasLineMatch] at h
  | cons c rest ih =>
    intro atStart h
    by_cases hm : (atStart && lineAnchorEnd pat (c :: rest)) = true
    · have h2 := ((Bool.and_eq_true _ _).mp hm).2
      unfold lineAnchorEnd at h2
      have h3 := (Bool.and_eq_true _ _).mp h2
      obtain ⟨post, hpost⟩ := List.isPrefixOf_iff_prefix.mp h3.1
      have hdrop : (c :: rest).drop pat.length = post := by
        rw [← hpost, List.drop_left]
      have hanch := h3.2
      rw [hdrop] at hanch
      refine ⟨[], post, by rw [List.nil_append, hpost], ?_, ?_⟩
      · unfold replaceLineGo
        rw [if_pos hm, hdrop, List.nil_append]
      · rcases hpost2 : post with _ | ⟨c2, r2⟩
        · exact Or.inl rfl
        · rw [hpost2] at hanch
          exact Or.inr ⟨c2, r2, rfl, hanch⟩
    · have h' : hasLineMatch pat rest (jsLineTerm c) = true := by
        unfold hasLineMatch at h
        rcases (Bool.or_eq_true _ _).mp h with h1 | h2
        · exact absurd h1 hm
        · exact h2
      obtain ⟨pre, post, ht, hr, hanch⟩ := ih (jsLineTerm c) h'
      refine ⟨c :: pre, post, ?_, ?_, hanch⟩
      · rw [List.cons_append, ← ht]
      · unfold replaceLineGo
        rw [if_neg hm, hr, List.cons_append]

/-- C5 (amended): a successful replaceAssetGuid leaves the target asset's
path unchanged; it leaves the payload bytes unchanged provided the payload's
decoded text holds no boundary-safe occurrence of the old guid (the
reference rewriter also runs over the target asset itself, so a payload
containing its own guid is rewritten, see the counterexample); the sidecar
becomes the re-encoded text in which the first multiline-anchored
occurrence of the guid-colon old-guid line is replaced by the new-guid line
(assuming the rewriting pass finds no further occurrence afterwards), the
anchors recognising every JS line terminator, the carriage return of a CRLF
sidecar included; and whenever the anchored pattern matches the sidecar
text, the rewritten text is the sidecar with the old-guid line text at that
first anchored position replaced by the new-guid line text. -/
theorem replaceAssetGuid_success_frame
    (S : UnityPackage) (p g gen : String) (a : UnityAsset)
    (ha : mget S.assets p = some a)
    (hg : g ≠ "")
    (hfree : mhas S.guidToPath g = false)
    (hnoocc : containsOcc a.guid.data none (bytesToStr a.assetData).data = false)
    (hmeta : ∀ md, a.metaData = some md →
      containsOcc a.guid.data none
        (replaceGuidLine a.guid g (bytesToStr md)).data = false) :
    ((UnityPackage.replaceAssetGuid S p (some g) gen).toOption.map Prod.fst =
        some true) ∧
    (((UnityPackage.replaceAssetGuid S p (some g) gen).toOption.bind
        (fun r => mget r.2.assets p)).map
      (fun a' => (a'.assetPath, a'.assetData, a'.guid, a'.metaData)) =
      some (a.assetPath, a.assetData, g,
        a.metaData.map (fun md =>
          strToBytes (replaceGuidLine a.guid g (bytesToStr md))))) ∧
    (∀ md, a.metaData = some md →
      hasLineMatch ("guid: " ++ a.guid).data (bytesToStr md).data true = true →
      ∃ pre post,
        (bytesToStr md).data = pre ++ (("guid: " ++ a.guid).data ++ post) ∧
        (replaceGuidLine a.guid g (bytesToStr md)).data
          = pre ++ (("guid: " ++ g).data ++ post)) := by
  have hmain : ∀ md', a.metaData = md' →
      (UnityPackage.replaceAssetGuid S p (some g) gen).toOption.map Prod.fst =
          some true ∧
      ((UnityPackage.replaceAssetGuid S p (some g) gen).toOption.bind
          (fun r => mget r.2.assets p)).map
        (fun a' => (a'.assetPath, a'.assetData, a'.guid, a'.metaData)) =
        some (a.assetPath, a.assetData, g,
          md'.map (fun md => strToBytes (replaceGuidLine a.guid g (bytesToStr md)))) := by
    intro md' hmd'
    unfold UnityPackage.replaceAssetGuid
    rw [ha]
    simp only [if_neg hg, hfree]
    cases md' with
    | none =>
      simp only [hmd', Bool.false_eq_true, if_false, Except.toOption, Option.map,
        Option.bind, UnityPackage.replaceGuidReferencesAssets]
      rw [mget_map_value, mget_mset_self]
      simp only [Option.map]
      rw [rewriteAsset_assetPath, rewriteAsset_assetData, rewriteAsset_guid,
        rewriteAsset_metaData]
      simp only [hmd', Option.map_none']
      rw [rewriteField_no_occurrence _ _ _ hnoocc]
      exact ⟨trivial, rfl⟩
    | some md =>
      simp only [hmd', Bool.false_eq_true, if_false, Except.toOption, Option.map,
        Option.bind, UnityPackage.replaceGuidReferencesAssets]
      rw [mset_mset_same, mget_map_value, mget_mset_self]
      simp only [Option.map]
      rw [rewriteAsset_assetPath, rewriteAsset_assetData, rewriteAsset_guid,
        rewriteAsset_metaData]
      simp only [Option.map_some']
      rw [rewriteField_no_occurrence _ _ _ hnoocc]
      rw [rewriteField_no_occurrence _ _ _ (by
        rw [bytesToStr_strToBytes]
        exact hmeta md hmd')]
      exact ⟨trivial, rfl⟩
  refine ⟨(hmain a.metaData rfl).1, (hmain a.metaData rfl).2, ?_⟩
  intro md hmd hm
  obtain ⟨pre, post, ht, hr, _⟩ :=
    replaceLineGo_spec ("guid: " ++ a.guid).data ("guid: " ++ g).data
      (bytesToStr md).data true hm
  exact ⟨pre, post, ht, hr⟩

theorem replaceAssetGuid_own_payload_rewritten :
    ((UnityPackage.replaceAssetGuid
        ⟨[("p", ⟨"aaaaaaaaaaaaaaaaaaaaaaaaaaaaaaaa", "p",
            strToBytes " aaaaaaaaaaaaaaaaaaaaaaaaaaaaaaaa ", none, none⟩)],
          [("aaaaaaaaaaaaaaaaaaaaaaaaaaaaaaaa", "p")],
          [("p", "aaaaaaaaaaaaaaaaaaaaaaaaaaaaaaaa")]⟩
        "p" (some "bbbbbbbbbbbbbbbbbbbbbbbbbbbbbbbb") "x").toOption.map
      Prod.fst = some true) ∧
    (((UnityPackage.replaceAssetGuid
        ⟨[("p", ⟨"aaaaaaaaaaaaaaaaaaaaaaaaaaaaaaaa", "p",
            strToBytes " aaaaaaaaaaaaaaaaaaaaaaaaaaaaaaaa ", none, none⟩)],
          [("aaaaaaaaaaaaaaaaaaaaaaaaaaaaaaaa", "p")],
          [("p", "aaaaaaaaaaaaaaaaaaaaaaaaaaaaaaaa")]⟩
        "p" (some "bbbbbbbbbbbbbbbbbbbbbbbbbbbbbbbb") "x").toOption.bind
      (fun r => mget r.2.assets "p")).map (fun a' => a'.assetData) ≠
      some (strToBytes " aaaaaaaaaaaaaaaaaaaaaaaaaaaaaaaa ")) := by
  decide

theorem replaceAssetGuid_success_frame_witness :
    ((UnityPackage.replaceAssetGuid
        ⟨[("p", ⟨"aaaaaaaaaaaaaaaaaaaaaaaaaaaaaaaa", "p", strToBytes "hello",
            some (strToBytes "guid: aaaaaaaaaaaaaaaaaaaaaaaaaaaaaaaa\r\nfoo: 1"),
            none⟩)],
          [("aaaaaaaaaaaaaaaaaaaaaaaaaaaaaaaa", "p")],
          [("p", "aaaaaaaaaaaaaaaaaaaaaaaaaaaaaaaa")]⟩
        "p" (some "bbbbbbbbbbbbbbbbbbbbbbbbbbbbbbbb") "x").toOption.map
      Prod.fst = some true) ∧
    (((UnityPackage.replaceAssetGuid
        ⟨[("p", ⟨"aaaaaaaaaaaaaaaaaaaaaaaaaaaaaaaa", "p", strToBytes "hello",
            some (strToBytes "guid: aaaaaaaaaaaaaaaaaaaaaaaaaaaaaaaa\r\nfoo: 1"),
            none⟩)],
          [("aaaaaaaaaaaaaaaaaaaaaaaaaaaaaaaa", "p")],
          [("p", "aaaaaaaaaaaaaaaaaaaaaaaaaaaaaaaa")]⟩
        "p" (some "bbbbbbbbbbbbbbbbbbbbbbbbbbbbbbbb") "x").toOption.bind
      (fun r => mget r.2.assets "p")).map
        (fun a' => (a'.assetPath, a'.assetData, a'.guid, a'.metaData)) =
      some ("p", strToBytes "hello", "bbbbbbbbbbbbbbbbbbbbbbbbbbbbbbbb",
        (some (strToBytes "guid: aaaaaaaaaaaaaaaaaaaaaaaaaaaaaaaa\r\nfoo: 1")).map
          (fun md => strToBytes
            (replaceGuidLine "aaaaaaaaaaaaaaaaaaaaaaaaaaaaaaaa"
              "bbbbbbbbbbbbbbbbbbbbbbbbbbbbbbbb" (bytesToStr md))))) ∧
    (∃ pre post,
      (bytesToStr (strToBytes
          "guid: aaaaaaaaaaaaaaaaaaaaaaaaaaaaaaaa\r\nfoo: 1")).data =
        pre ++ (("guid: " ++ "aaaaaaaaaaaaaaaaaaaaaaaaaaaaaaaa").data ++ post) ∧
      (replaceGuidLine "aaaaaaaaaaaaaaaaaaaaaaaaaaaaaaaa"
          "bbbbbbbbbbbbbbbbbbbbbbbbbbbbbbbb"
          (bytesToStr (strToBytes
            "guid: aaaaaaaaaaaaaaaaaaaaaaaaaaaaaaaa\r\nfoo: 1"))).data =
        pre ++ (("guid: " ++ "bbbbbbbbbbbbbbbbbbbbbbbbbbbbbbbb").data ++ post)) := by
  have h := replaceAssetGuid_success_frame
    ⟨[("p", ⟨"aaaaaaaaaaaaaaaaaaaaaaaaaaaaaaaa", "p", strToBytes "hello",
        some (strToBytes "guid: aaaaaaaaaaaaaaaaaaaaaaaaaaaaaaaa\r\nfoo: 1"),
        none⟩)],
      [("aaaaaaaaaaaaaaaaaaaaaaaaaaaaaaaa", "p")],
      [("p", "aaaaaaaaaaaaaaaaaaaaaaaaaaaaaaaa")]⟩
    "p" "bbbbbbbbbbbbbbbbbbbbbbbbbbbbbbbb" "x"
    ⟨"aaaaaaaaaaaaaaaaaaaaaaaaaaaaaaaa", "p", strToBytes "hello",
      some (strToBytes "guid: aaaaaaaaaaaaaaaaaaaaaaaaaaaaaaaa\r\nfoo: 1"),
      none⟩
    (by decide) (by decide) (by decide) (by decide)
    (by
      intro md hmd
      simp only [Option.some.injEq] at hmd
      subst hmd
      decide)
  exact ⟨h.1, h.2.1, h.2.2
    (strToBytes "guid: aaaaaaaaaaaaaaaaaaaaaaaaaaaaaaaa\r\nfoo: 1") rfl
    (by decide)⟩

/-- C2: with a nonempty guid that is already present in the guid index
(guids are nonempty 32-hex strings; the empty string is falsy in JS and
triggers generation instead), replaceAssetGuid on a present path throws and
the store at the throw is exactly the store before the call; on an absent
path it returns false without throwing, also leaving the store untouched. -/
theorem replaceAssetGuid_collision_unchanged
    (S : UnityPackage) (p g gen : String) (hg : g ≠ "") :
    (∀ a, mget S.assets p = some a → mhas S.guidToPath g = true →
      UnityPackage.replaceAssetGuid S p (some g) gen =
        .error ("GUID '" ++ g ++ "' is already in use", S)) ∧
    (mget S.assets p = none →
      UnityPackage.replaceAssetGuid S p (some g) gen = .ok (false, S)) := by
  constructor
  · intro a ha hcol
    unfold UnityPackage.replaceAssetGuid
    rw [ha]
    simp only [if_neg hg, hcol, if_true]
  · intro ha
    unfold UnityPackage.replaceAssetGuid
    rw [ha]

theorem replaceAssetGuid_collision_unchanged_witness :
    (UnityPackage.replaceAssetGuid
        ⟨[("a", ⟨"11111111111111111111111111111111", "a", [1], none, none⟩),
          ("b", ⟨"22222222222222222222222222222222", "b", [2], none, none⟩)],
          [("11111111111111111111111111111111", "a"),
            ("22222222222222222222222222222222", "b")],
          [("a", "11111111111111111111111111111111"),
            ("b", "22222222222222222222222222222222")]⟩
        "a" (some "22222222222222222222222222222222") "x" =
      .error ("GUID '" ++ "22222222222222222222222222222222" ++ "' is already in use",
        ⟨[("a", ⟨"11111111111111111111111111111111", "a", [1], none, none⟩),
          ("b", ⟨"22222222222222222222222222222222", "b", [2], none, none⟩)],
          [("11111111111111111111111111111111", "a"),
            ("22222222222222222222222222222222", "b")],
          [("a", "11111111111111111111111111111111"),
            ("b", "22222222222222222222222222222222")]⟩)) ∧
    (UnityPackage.replaceAssetGuid
        ⟨[("a", ⟨"11111111111111111111111111111111", "a", [1], none, none⟩),
          ("b", ⟨"22222222222222222222222222222222", "b", [2], none, none⟩)],
          [("11111111111111111111111111111111", "a"),
            ("22222222222222222222222222222222", "b")],
          [("a", "11111111111111111111111111111111"),
            ("b", "22222222222222222222222222222222")]⟩
        "zz" (some "22222222222222222222222222222222") "x" =
      .ok (false,
        ⟨[("a", ⟨"11111111111111111111111111111111", "a", [1], none, none⟩),
          ("b", ⟨"22222222222222222222222222222222", "b", [2], none, none⟩)],
          [("11111111111111111111111111111111", "a"),
            ("22222222222222222222222222222222", "b")],
          [("a", "11111111111111111111111111111111"),
            ("b", "22222222222222222222222222222222")]⟩)) :=
  ⟨(replaceAssetGuid_collision_unchanged _ "a" "22222222222222222222222222222222" "x"
      (by decide)).1
    ⟨"11111111111111111111111111111111", "a", [1], none, none⟩ (by decide) (by decide),
    (replaceAssetGuid_collision_unchanged _ "zz" "22222222222222222222222222222222" "x"
      (by decide)).2 (by decide)⟩

/-- C4 (amended): renameAsset on an absent old path returns false and leaves
the store untouched; on a present old path whose new path is not already
taken it returns true, the old path disappears, the new path holds an asset
with the same guid, payload and sidecar, and the asset count is unchanged.
Renaming onto an occupied path silently overwrites it and shrinks the count,
see the counterexample, which is why the new-path freshness hypothesis is
required. -/
theorem renameAsset_frame (S : UnityPackage) (oldPath newPath : String) :
    (mget S.assets oldPath = none →
      UnityPackage.renameAsset S oldPath newPath = (false, S)) ∧
    (∀ a, mget S.assets oldPath = some a →
      mhas S.assets newPath = false →
      (S.assets.map (·.1)).Nodup →
      (UnityPackage.renameAsset S oldPath newPath).1 = true ∧
      mget (UnityPackage.renameAsset S oldPath newPath).2.assets oldPath = none ∧
      (mget (UnityPackage.renameAsset S oldPath newPath).2.assets newPath).map
        (fun a' => (a'.guid, a'.assetData, a'.metaData)) =
        some (a.guid, a.assetData, a.metaData) ∧
      (UnityPackage.renameAsset S oldPath newPath).2.assets.length =
        S.assets.length) := by
  constructor
  · intro ha
    unfold UnityPackage.renameAsset
    rw [ha]
  · intro a ha hnew hnd
    have hne : newPath ≠ oldPath := by
      intro he
      rw [he] at hnew
      unfold mhas at hnew
      rw [ha] at hnew
      simp at hnew
    have hnewnone : mget S.assets newPath = none := by
      unfold mhas at hnew
      cases hemp : mget S.assets newPath with
      | none => rfl
      | some x => rw [hemp] at hnew; simp at hnew
    unfold UnityPackage.renameAsset
    rw [ha]
    refine ⟨rfl, ?_, ?_, ?_⟩
    · simp only
      rw [mget_mset_ne _ _ _ _ hne, mget_mdel_self S.assets oldPath hnd]
    · simp only
      rw [mget_mset_self]
      rfl
    · simp only
      rw [mset_length_fresh _ _ _ (mget_none_of_mdel _ _ _ hnewnone)]
      rw [← mdel_length_present S.assets oldPath (by rw [ha]; rfl)]

theorem renameAsset_frame_witness :
    (UnityPackage.renameAsset
        ⟨[("a", ⟨"11111111111111111111111111111111", "a", [1], none, none⟩)],
          [("11111111111111111111111111111111", "a")],
          [("a", "11111111111111111111111111111111")]⟩
        "zz" "b" =
      (false,
        ⟨[("a", ⟨"11111111111111111111111111111111", "a", [1], none, none⟩)],
          [("11111111111111111111111111111111", "a")],
          [("a", "11111111111111111111111111111111")]⟩)) ∧
    ((UnityPackage.renameAsset
        ⟨[("a", ⟨"11111111111111111111111111111111", "a", [1], none, none⟩)],
          [("11111111111111111111111111111111", "a")],
          [("a", "11111111111111111111111111111111")]⟩
        "a" "b").1 = true ∧
      mget (UnityPackage.renameAsset
        ⟨[("a", ⟨"11111111111111111111111111111111", "a", [1], none, none⟩)],
          [("11111111111111111111111111111111", "a")],
          [("a", "11111111111111111111111111111111")]⟩
        "a" "b").2.assets "a" = none ∧
      (mget (UnityPackage.renameAsset
        ⟨[("a", ⟨"11111111111111111111111111111111", "a", [1], none, none⟩)],
          [("11111111111111111111111111111111", "a")],
          [("a", "11111111111111111111111111111111")]⟩
        "a" "b").2.assets "b").map
          (fun a' => (a'.guid, a'.assetData, a'.metaData)) =
        some ("11111111111111111111111111111111", [1], none) ∧
      (UnityPackage.renameAsset
        ⟨[("a", ⟨"11111111111111111111111111111111", "a", [1], none, none⟩)],
          [("11111111111111111111111111111111", "a")],
          [("a", "11111111111111111111111111111111")]⟩
        "a" "b").2.assets.length =
        [("a", (⟨"11111111111111111111111111111111", "a", [1], none, none⟩ : UnityAsset))].length) :=
  ⟨(renameAsset_frame _ "zz" "b").1 (by decide),
    (renameAsset_frame _ "a" "b").2
      ⟨"11111111111111111111111111111111", "a", [1], none, none⟩
      (by decide) (by decide) (by decide)⟩

theorem renameAsset_overwrite_shrinks :
    (UnityPackage.renameAsset
        ⟨[("a", ⟨"11111111111111111111111111111111", "a", [1], none, none⟩),
          ("b", ⟨"22222222222222222222222222222222", "b", [2], none, none⟩)],
          [("11111111111111111111111111111111", "a"),
            ("22222222222222222222222222222222", "b")],
          [("a", "11111111111111111111111111111111"),
            ("b", "22222222222222222222222222222222")]⟩
        "a" "b").1 = true ∧
    (UnityPackage.renameAsset
        ⟨[("a", ⟨"11111111111111111111111111111111", "a", [1], none, none⟩),
          ("b", ⟨"22222222222222222222222222222222", "b", [2], none, none⟩)],
          [("11111111111111111111111111111111", "a"),
            ("22222222222222222222222222222222", "b")],
          [("a", "11111111111111111111111111111111"),
            ("b", "22222222222222222222222222222222")]⟩
        "a" "b").2.assets.length = 1 := by
  decide

/-! ### Gzip name-injection lemmas -/

theorem replicate_drop {α : Type} : ∀ (n m : Nat) (a : α),
    (List.replicate m a).drop n = List.replicate (m - n) a
  | 0, m, _ => by simp
  | _ + 1, 0, _ => by simp
  | n + 1, m + 1, a => by
    simp only [List.replicate_succ, List.drop_succ_cons]
    rw [replicate_drop n m a]
    congr 1
    omega

theorem replicate_take {α : Type} : ∀ (n m : Nat) (a : α),
    (List.replicate m a).take n = List.replicate (min n m) a
  | 0, m, _ => by simp
  | _ + 1, 0, _ => by simp
  | n + 1, m + 1, a => by
    simp only [List.replicate_succ, List.take_succ_cons]
    rw [replicate_take n m a]
    rw [show min (n + 1) (m + 1) = min n m + 1 by omega]
    rfl

theorem take_append_right {α : Type} (l₁ l₂ : List α) (n k : Nat)
    (h : l₁.length = n) : (l₁ ++ l₂).take (n + k) = l₁ ++ l₂.take k := by
  subst h
  induction l₁ with
  | nil => simp
  | cons a l ih =>
    simp only [List.cons_append, List.length_cons]
    rw [show l.length + 1 + k = (l.length + k) + 1 by omega]
    simp only [List.take_succ_cons]
    rw [ih]

theorem drop_append_right {α : Type} (l₁ l₂ : List α) (n k : Nat)
    (h : l₁.length = n) : (l₁ ++ l₂).drop (n + k) = l₂.drop k := by
  rw [← List.drop_drop, List.drop_left' h]

theorem addOriginalNameToGzip_eq (d : List Nat) (name : String)
    (hlen : 10 ≤ d.length) (hu : utf16Length name = (strToBytes name).length) :
    addOriginalNameToGzip d name =
      (d.take 10).set 3 ((d.take 10).getD 3 0 ||| 0x08) ++
        (strToBytes name ++ ([0] ++ d.drop 10)) := by
  unfold addOriginalNameToGzip overwriteAt
  simp only
  have hHlen : ((d.take 10).set 3 ((d.take 10).getD 3 0 ||| 0x08)).length = 10 := by
    rw [List.length_set, List.length_take]
    omega
  rw [List.take_zero, List.nil_append, Nat.zero_add, hHlen, hu]
  rw [replicate_drop]
  rw [List.take_left' hHlen]
  rw [drop_append_right _ _ 10 (strToBytes name).length hHlen]
  rw [replicate_drop]
  rw [show d.length + (strToBytes name).length + 1 - 10 - (strToBytes name).length
      = d.length - 9 by omega]
  rw [show 10 + (strToBytes name).length + 1 = 10 + ((strToBytes name).length + 1)
    by omega]
  simp only [List.append_assoc]
  rw [take_append_right _ _ 10 ((strToBytes name).length + 1) hHlen]
  rw [take_append_right _ _ (strToBytes name).length 1 rfl]
  rw [replicate_take]
  rw [show min 1 (d.length - 9) = 1 by omega]
  rw [show 10 + ((strToBytes name).length + 1) + (d.drop 10).length
      = 10 + ((strToBytes name).length + (1 + (d.drop 10).length)) by omega]
  rw [drop_append_right _ _ 10 _ hHlen]
  rw [drop_append_right _ _ (strToBytes name).length _ rfl]
  rw [replicate_drop]
  rw [show d.length - 9 - (1 + (d.drop 10).length) = 0 by
    simp only [List.length_drop]
    omega]
  simp

theorem getD_append_left {α : Type} (l₁ l₂ : List α) (n : Nat) (a : α)
    (h : n < l₁.length) : (l₁ ++ l₂).getD n a = l₁.getD n a := by
  simp [List.getD_eq_getElem?_getD, List.getElem?_append, h]

theorem getD_set_ne {α : Type} (l : List α) (i j : Nat) (b a : α)
    (h : i ≠ j) : (l.set i b).getD j a = l.getD j a := by
  simp [List.getD_eq_getElem?_getD, List.getElem?_set_ne h]

theorem getD_set_self {α : Type} (l : List α) (i : Nat) (b a : α)
    (h : i < l.length) : (l.set i b).getD i a = b := by
  simp [List.getD_eq_getElem?_getD, List.getElem?_set_self, h]

theorem getD_take {α : Type} (l : List α) (n i : Nat) (a : α)
    (h : i < n) : (l.take n).getD i a = l.getD i a := by
  simp [List.getD_eq_getElem?_getD, List.getElem?_take, h]

/-- C7: for a compressed stream of length at least ten whose first two bytes
are the gzip magic, the export's name-injection step yields an output one
name-length-plus-one longer, keeps the magic, sets the FNAME bit 0x08 on byte
three, places the null-terminated name at offset ten, shifts the remaining
input bytes right by name-length-plus-one, and export applies this step
unconditionally with the fixed name archtemp.tar. -/
theorem exportBytes_gzip_name (S : UnityPackage)
    (compress : List TarGzEntry → List Nat)
    (hlen : 10 ≤ (compress (UnityPackage.exportFiles S)).length)
    (h0 : (compress (UnityPackage.exportFiles S)).getD 0 0 = 0x1F)
    (h1 : (compress (UnityPackage.exportFiles S)).getD 1 0 = 0x8B) :
    UnityPackage.exportBytes S compress =
        addOriginalNameToGzip (compress (UnityPackage.exportFiles S))
          "archtemp.tar"
      ∧ (UnityPackage.exportBytes S compress).length
          = (compress (UnityPackage.exportFiles S)).length + 12 + 1
      ∧ (UnityPackage.exportBytes S compress).getD 0 0 = 0x1F
      ∧ (UnityPackage.exportBytes S compress).getD 1 0 = 0x8B
      ∧ (UnityPackage.exportBytes S compress).getD 3 0
          = (compress (UnityPackage.exportFiles S)).getD 3 0 ||| 0x08
      ∧ ((UnityPackage.exportBytes S compress).drop 10).take 13
          = strToBytes "archtemp.tar" ++ [0]
      ∧ (UnityPackage.exportBytes S compress).drop 23
          = (compress (UnityPackage.exportFiles S)).drop 10 := by
  set d := compress (UnityPackage.exportFiles S) with hd
  have hE : UnityPackage.exportBytes S compress =
      (d.take 10).set 3 ((d.take 10).getD 3 0 ||| 0x08) ++
        (strToBytes "archtemp.tar" ++ ([0] ++ d.drop 10)) :=
    addOriginalNameToGzip_eq d "archtemp.tar" hlen (by decide)
  have hHlen : ((d.take 10).set 3 ((d.take 10).getD 3 0 ||| 0x08)).length
      = 10 := by
    rw [List.length_set, List.length_take]
    omega
  have hNm : (strToBytes "archtemp.tar").length = 12 := by decide
  refine ⟨rfl, ?_, ?_, ?_, ?_, ?_, ?_⟩
  · rw [hE]
    simp [hNm]
    omega
  · rw [hE, getD_append_left _ _ 0 0 (by rw [hHlen]; omega),
      getD_set_ne _ 3 0 _ 0 (by omega), getD_take _ 10 0 0 (by omega), h0]
  · rw [hE, getD_append_left _ _ 1 0 (by rw [hHlen]; omega),
      getD_set_ne _ 3 1 _ 0 (by omega), getD_take _ 10 1 0 (by omega), h1]
  · rw [hE, getD_append_left _ _ 3 0 (by rw [hHlen]; omega),
      getD_set_self _ 3 _ 0 (by rw [List.length_take]; omega),
      getD_take _ 10 3 0 (by omega)]
  · rw [hE, List.drop_left' hHlen,
      show (13 : Nat) = 12 + 1 by omega,
      take_append_right _ _ 12 1 hNm]
    simp
  · rw [hE, show (23 : Nat) = 10 + 13 by omega,
      drop_append_right _ _ 10 13 hHlen,
      show (13 : Nat) = 12 + 1 by omega,
      drop_append_right _ _ 12 1 hNm]
    simp

theorem exportBytes_gzip_name_witness :
    UnityPackage.exportBytes ⟨[], [], []⟩
        (fun _ => [31, 139, 8, 4, 0, 0, 0, 0, 0, 255]) =
        addOriginalNameToGzip [31, 139, 8, 4, 0, 0, 0, 0, 0, 255]
          "archtemp.tar"
      ∧ (UnityPackage.exportBytes ⟨[], [], []⟩
          (fun _ => [31, 139, 8, 4, 0, 0, 0, 0, 0, 255])).length = 10 + 12 + 1
      ∧ (UnityPackage.exportBytes ⟨[], [], []⟩
          (fun _ => [31, 139, 8, 4, 0, 0, 0, 0, 0, 255])).getD 0 0 = 0x1F
      ∧ (UnityPackage.exportBytes ⟨[], [], []⟩
          (fun _ => [31, 139, 8, 4, 0, 0, 0, 0, 0, 255])).getD 1 0 = 0x8B
      ∧ (UnityPackage.exportBytes ⟨[], [], []⟩
          (fun _ => [31, 139, 8, 4, 0, 0, 0, 0, 0, 255])).getD 3 0
          = 4 ||| 0x08
      ∧ ((UnityPackage.exportBytes ⟨[], [], []⟩
          (fun _ => [31, 139, 8, 4, 0, 0, 0, 0, 0, 255])).drop 10).take 13
          = strToBytes "archtemp.tar" ++ [0]
      ∧ (UnityPackage.exportBytes ⟨[], [], []⟩
          (fun _ => [31, 139, 8, 4, 0, 0, 0, 0, 0, 255])).drop 23 = [] :=
  exportBytes_gzip_name ⟨[], [], []⟩
    (fun _ => [31, 139, 8, 4, 0, 0, 0, 0, 0, 255])
    (by decide) (by decide) (by decide)

theorem kfLe_trans (a b c : Keyframe) (h1 : kfLe a b = true)
    (h2 : kfLe b c = true) : kfLe a c = true := by
  simp only [kfLe, decide_eq_true_iff] at *
  exact le_trans h1 h2

theorem kfLe_total (a b : Keyframe) : (kfLe a b || kfLe b a) = true := by
  simp only [kfLe, Bool.or_eq_true, decide_eq_true_iff]
  exact le_total a.time b.time

theorem addKfList_sorted (cs : List FloatCurve) (attr path : String)
    (kf : Keyframe)
    (hs : ∀ c ∈ cs, c.keyframes.Pairwise (fun a b => a.time ≤ b.time)) :
    ∀ c ∈ addKfList cs attr path kf,
      c.keyframes.Pairwise (fun a b => a.time ≤ b.time) := by
  induction cs with
  | nil => intro c hc; simp [addKfList] at hc
  | cons c0 cs ih =>
    intro c hc
    by_cases hm : (c0.attr == attr && c0.path == path) = true
    · rw [addKfList, if_pos hm] at hc
      rcases List.mem_cons.1 hc with h | h
      · subst h
        have := List.sorted_mergeSort kfLe_trans kfLe_total
          (c0.keyframes ++ [kf])
        refine (List.Pairwise.imp ?_ this)
        intro a b hab
        simpa [kfLe, decide_eq_true_iff] using hab
      · exact hs c (List.mem_cons_of_mem _ h)
    · rw [addKfList, if_neg hm] at hc
      rcases List.mem_cons.1 hc with h | h
      · subst h; exact hs c (List.mem_cons_self _ _)
      · exact ih (fun x hx => hs x (List.mem_cons_of_mem _ hx)) c h

theorem addKfList_perm (cs : List FloatCurve) (attr path : String)
    (kf : Keyframe) (c0 : FloatCurve)
    (hfind : cs.find? (fun c => c.attr == attr && c.path == path) = some c0) :
    ∃ c1 ∈ addKfList cs attr path kf,
      c1.attr = c0.attr ∧ c1.path = c0.path ∧
        c1.keyframes.Perm (c0.keyframes ++ [kf]) := by
  induction cs with
  | nil => simp [List.find?] at hfind
  | cons d ds ih =>
    by_cases hm : (d.attr == attr && d.path == path) = true
    · simp only [List.find?_cons, hm] at hfind
      injection hfind with h0
      subst h0
      refine ⟨{ d with keyframes := (d.keyframes ++ [kf]).mergeSort kfLe },
        ?_, rfl, rfl, List.mergeSort_perm _ _⟩
      rw [addKfList, if_pos hm]
      exact List.mem_cons_self _ _
    · rw [Bool.not_eq_true] at hm
      simp only [List.find?_cons, hm] at hfind
      obtain ⟨c1, hc1, hprop⟩ := ih hfind
      refine ⟨c1, ?_, hprop⟩
      rw [addKfList, if_neg (by simp [hm])]
      exact List.mem_cons_of_mem _ hc1

theorem addKfList_not_found (cs : List FloatCurve) (attr path : String)
    (kf : Keyframe)
    (hfind : cs.find? (fun c => c.attr == attr && c.path == path) = none) :
    addKfList cs attr path kf = cs := by
  induction cs with
  | nil => rfl
  | cons d ds ih =>
    rw [List.find?_eq_none] at hfind
    have hm : ¬ (d.attr == attr && d.path == path) = true :=
      hfind d (List.mem_cons_self _ _)
    rw [addKfList, if_neg hm]
    rw [ih (List.find?_eq_none.2 fun x hx =>
      hfind x (List.mem_cons_of_mem _ hx))]

/-- C8: addKeyframe keeps every curve's keyframe list sorted ascending by
time: if every curve of the animation is sorted before the call then every
curve is sorted after it; on the matched curve the result is a permutation of
the old keyframes with the new one appended; and when no curve matches the
attribute and path the animation is unchanged. -/
theorem addKeyframe_sorted (anim : UnityAnimation) (attr path : String)
    (kf : Keyframe)
    (hs : ∀ c ∈ anim.floatCurves,
      c.keyframes.Pairwise (fun a b => a.time ≤ b.time)) :
    (∀ c ∈ (UnityAnimation.addKeyframe anim attr path kf).floatCurves,
        c.keyframes.Pairwise (fun a b => a.time ≤ b.time))
    ∧ (∀ c0, UnityAnimation.getCurve anim attr path = some c0 →
        ∃ c1 ∈ (UnityAnimation.addKeyframe anim attr path kf).floatCurves,
          c1.attr = c0.attr ∧ c1.path = c0.path ∧
            c1.keyframes.Perm (c0.keyframes ++ [kf]))
    ∧ (UnityAnimation.getCurve anim attr path = none →
        UnityAnimation.addKeyframe anim attr path kf = anim) := by
  refine ⟨addKfList_sorted _ _ _ _ hs, ?_, ?_⟩
  · intro c0 h0
    exact addKfList_perm _ _ _ kf c0 h0
  · intro hnone
    show { anim with floatCurves := addKfList anim.floatCurves attr path kf }
      = anim
    rw [addKfList_not_found _ _ _ _ hnone]

theorem addKeyframe_sorted_witness :
    (∀ c ∈ (UnityAnimation.mk "anim"
        [⟨"m_LocalPosition.x", "root",
          [⟨0, 5, 0, 0, 0, 0, 1, 1⟩, ⟨2, 7, 0, 0, 0, 0, 1, 1⟩], 0⟩]).floatCurves,
      c.keyframes.Pairwise (fun a b => a.time ≤ b.time))
    ∧ ((∀ c ∈ (UnityAnimation.addKeyframe (UnityAnimation.mk "anim"
        [⟨"m_LocalPosition.x", "root",
          [⟨0, 5, 0, 0, 0, 0, 1, 1⟩, ⟨2, 7, 0, 0, 0, 0, 1, 1⟩], 0⟩])
        "m_LocalPosition.x" "root" ⟨1, 6, 0, 0, 0, 0, 1, 1⟩).floatCurves,
        c.keyframes.Pairwise (fun a b => a.time ≤ b.time))
      ∧ (∀ c0, UnityAnimation.getCurve (UnityAnimation.mk "anim"
          [⟨"m_LocalPosition.x", "root",
            [⟨0, 5, 0, 0, 0, 0, 1, 1⟩, ⟨2, 7, 0, 0, 0, 0, 1, 1⟩], 0⟩])
          "m_LocalPosition.x" "root" = some c0 →
          ∃ c1 ∈ (UnityAnimation.addKeyframe (UnityAnimation.mk "anim"
            [⟨"m_LocalPosition.x", "root",
              [⟨0, 5, 0, 0, 0, 0, 1, 1⟩, ⟨2, 7, 0, 0, 0, 0, 1, 1⟩], 0⟩])
            "m_LocalPosition.x" "root" ⟨1, 6, 0, 0, 0, 0, 1, 1⟩).floatCurves,
            c1.attr = c0.attr ∧ c1.path = c0.path ∧
              c1.keyframes.Perm (c0.keyframes ++ [⟨1, 6, 0, 0, 0, 0, 1, 1⟩]))
      ∧ (UnityAnimation.getCurve (UnityAnimation.mk "anim"
          [⟨"m_LocalPosition.x", "root",
            [⟨0, 5, 0, 0, 0, 0, 1, 1⟩, ⟨2, 7, 0, 0, 0, 0, 1, 1⟩], 0⟩])
          "m_LocalPosition.x" "root" = none →
          UnityAnimation.addKeyframe (UnityAnimation.mk "anim"
            [⟨"m_LocalPosition.x", "root",
              [⟨0, 5, 0, 0, 0, 0, 1, 1⟩, ⟨2, 7, 0, 0, 0, 0, 1, 1⟩], 0⟩])
            "m_LocalPosition.x" "root" ⟨1, 6, 0, 0, 0, 0, 1, 1⟩
            = UnityAnimation.mk "anim"
              [⟨"m_LocalPosition.x", "root",
                [⟨0, 5, 0, 0, 0, 0, 1, 1⟩, ⟨2, 7, 0, 0, 0, 0, 1, 1⟩], 0⟩])) :=
  ⟨by
    intro c hc
    simp only [List.mem_singleton] at hc
    subst hc
    decide,
   addKeyframe_sorted _ "m_LocalPosition.x" "root" ⟨1, 6, 0, 0, 0, 0, 1, 1⟩
    (by
      intro c hc
      simp only [List.mem_singleton] at hc
      subst hc
      decide)⟩

theorem splitSlash_ne_nil (l : List Char) : splitSlash l ≠ [] := by
  match l with
  | [] => simp [splitSlash]
  | c :: rest =>
    by_cases h : c = '/'
    · simp [splitSlash, h]
    · simp only [splitSlash, if_neg h]
      cases hs : splitSlash rest <;> simp

theorem splitSlash_no_slash (g : List Char) (hg : ∀ c ∈ g, c ≠ '/') :
    splitSlash g = [g] := by
  induction g with
  | nil => rfl
  | cons c rest ih =>
    have hc : c ≠ '/' := hg c (List.mem_cons_self _ _)
    have h2 : splitSlash rest = [rest] :=
      ih (fun x hx => hg x (List.mem_cons_of_mem _ hx))
    simp [splitSlash, hc, h2]

theorem splitSlash_append (g t : List Char) (hg : ∀ c ∈ g, c ≠ '/') :
    splitSlash (g ++ '/' :: t) = g :: splitSlash t := by
  induction g with
  | nil => simp [splitSlash]
  | cons c rest ih =>
    have hc : c ≠ '/' := hg c (List.mem_cons_self _ _)
    have h2 := ih (fun x hx => hg x (List.mem_cons_of_mem _ hx))
    simp only [List.cons_append, splitSlash, if_neg hc, List.append_eq, h2]

theorem nameParts_slash (g suf : String) (hg : ∀ c ∈ g.data, c ≠ '/')
    (hsuf : ∀ c ∈ suf.data, c ≠ '/') :
    nameParts ⟨g.data ++ '/' :: suf.data⟩ = [g, suf] := by
  unfold nameParts
  show (splitSlash (g.data ++ '/' :: suf.data)).map String.mk = [g, suf]
  rw [splitSlash_append _ _ hg, splitSlash_no_slash _ hsuf]
  rfl

theorem strAppend_suffix_ne (g s t : String) (h : s ≠ t) :
    g ++ s ≠ g ++ t := by
  intro he
  apply h
  have hd : g.data ++ s.data = g.data ++ t.data := congrArg String.data he
  have h2 := List.append_cancel_left hd
  cases s
  cases t
  exact congrArg String.mk h2

theorem slashName_ne_of_guid_ne (g1 g2 s1 s2 : String)
    (hg1 : ∀ c ∈ g1.data, c ≠ '/') (hg2 : ∀ c ∈ g2.data, c ≠ '/')
    (hs1 : ∀ c ∈ s1.data, c ≠ '/') (hs2 : ∀ c ∈ s2.data, c ≠ '/')
    (h : g1 ≠ g2) :
    (⟨g1.data ++ '/' :: s1.data⟩ : String) ≠ ⟨g2.data ++ '/' :: s2.data⟩ := by
  intro he
  apply h
  have h2 : nameParts ⟨g1.data ++ '/' :: s1.data⟩
      = nameParts ⟨g2.data ++ '/' :: s2.data⟩ := by rw [he]
  rw [nameParts_slash _ _ hg1 hs1, nameParts_slash _ _ hg2 hs2] at h2
  exact (List.cons_eq_cons.mp h2).1

/-- C10: importing an archive holding two complete pathname-and-payload
groups under distinct slash-free guids whose pathname payloads decode and
trim to the same asset path succeeds without error or warning: the group
processed later silently overwrites the earlier one under that path, the
guid-to-path index keeps an entry for both guids at that path, the path
index points at the later guid, and the store ends with strictly fewer
assets than guid-index entries, so the earlier payload is unreachable. -/
theorem fromEntries_duplicate_path (g1 g2 : String) (b1 d1 b2 d2 : List Nat)
    (hg1 : ∀ c ∈ g1.data, c ≠ '/') (hg2 : ∀ c ∈ g2.data, c ≠ '/')
    (hne : g1 ≠ g2)
    (hdup : trimStr (bytesToStr b1) = trimStr (bytesToStr b2)) :
    UnityPackage.fromEntries
        [⟨g1 ++ "/pathname", b1, false⟩, ⟨g1 ++ "/asset", d1, false⟩,
         ⟨g2 ++ "/pathname", b2, false⟩, ⟨g2 ++ "/asset", d2, false⟩]
      = { assets := [(trimStr (bytesToStr b2),
            { guid := g2, assetPath := trimStr (bytesToStr b2),
              assetData := d2, metaData := none, previewData := none })],
          guidToPath := [(g1, trimStr (bytesToStr b2)),
            (g2, trimStr (bytesToStr b2))],
          pathToGuid := [(trimStr (bytesToStr b2), g2)] }
    ∧ (UnityPackage.fromEntries
        [⟨g1 ++ "/pathname", b1, false⟩, ⟨g1 ++ "/asset", d1, false⟩,
         ⟨g2 ++ "/pathname", b2, false⟩, ⟨g2 ++ "/asset", d2, false⟩]).assets.length
      < (UnityPackage.fromEntries
        [⟨g1 ++ "/pathname", b1, false⟩, ⟨g1 ++ "/asset", d1, false⟩,
         ⟨g2 ++ "/pathname", b2, false⟩, ⟨g2 ++ "/asset", d2, false⟩]).guidToPath.length := by
  have hp1 : nameParts (g1 ++ "/pathname") = [g1, "pathname"] :=
    nameParts_slash g1 "pathname" hg1 (by decide)
  have ha1 : nameParts (g1 ++ "/asset") = [g1, "asset"] :=
    nameParts_slash g1 "asset" hg1 (by decide)
  have hp2 : nameParts (g2 ++ "/pathname") = [g2, "pathname"] :=
    nameParts_slash g2 "pathname" hg2 (by decide)
  have ha2 : nameParts (g2 ++ "/asset") = [g2, "asset"] :=
    nameParts_slash g2 "asset" hg2 (by decide)
  have h12 : (g1 ++ "/pathname" : String) ≠ g1 ++ "/asset" :=
    strAppend_suffix_ne g1 _ _ (by decide)
  have h34 : (g2 ++ "/pathname" : String) ≠ g2 ++ "/asset" :=
    strAppend_suffix_ne g2 _ _ (by decide)
  have h13 : (g1 ++ "/pathname" : String) ≠ g2 ++ "/pathname" :=
    slashName_ne_of_guid_ne g1 g2 "pathname" "pathname" hg1 hg2
      (by decide) (by decide) hne
  have h14 : (g1 ++ "/pathname" : String) ≠ g2 ++ "/asset" :=
    slashName_ne_of_guid_ne g1 g2 "pathname" "asset" hg1 hg2
      (by decide) (by decide) hne
  have h23 : (g1 ++ "/asset" : String) ≠ g2 ++ "/pathname" :=
    slashName_ne_of_guid_ne g1 g2 "asset" "pathname" hg1 hg2
      (by decide) (by decide) hne
  have h24 : (g1 ++ "/asset" : String) ≠ g2 ++ "/asset" :=
    slashName_ne_of_guid_ne g1 g2 "asset" "asset" hg1 hg2
      (by decide) (by decide) hne
  have hmain : UnityPackage.fromEntries
        [⟨g1 ++ "/pathname", b1, false⟩, ⟨g1 ++ "/asset", d1, false⟩,
         ⟨g2 ++ "/pathname", b2, false⟩, ⟨g2 ++ "/asset", d2, false⟩]
      = { assets := [(trimStr (bytesToStr b2),
            { guid := g2, assetPath := trimStr (bytesToStr b2),
              assetData := d2, metaData := none, previewData := none })],
          guidToPath := [(g1, trimStr (bytesToStr b2)),
            (g2, trimStr (bytesToStr b2))],
          pathToGuid := [(trimStr (bytesToStr b2), g2)] } := by
    unfold UnityPackage.fromEntries
    simp [extractEntriesMap, groupStep, buildStep, mget, mset,
      hp1, ha1, hp2, ha2, h12, h13, h14, h23, h24, h34, hne, hdup]
  refine ⟨hmain, ?_⟩
  rw [hmain]
  simp

theorem fromEntries_duplicate_path_witness :
    UnityPackage.fromEntries
        [⟨"aaaabbbbccccddddeeeeffff00001111" ++ "/pathname", [65], false⟩,
         ⟨"aaaabbbbccccddddeeeeffff00001111" ++ "/asset", [1], false⟩,
         ⟨"22223333444455556666777788889999" ++ "/pathname", [32, 65], false⟩,
         ⟨"22223333444455556666777788889999" ++ "/asset", [2], false⟩]
      = { assets := [(trimStr (bytesToStr [32, 65]),
            { guid := "22223333444455556666777788889999",
              assetPath := trimStr (bytesToStr [32, 65]),
              assetData := [2], metaData := none, previewData := none })],
          guidToPath :=
            [("aaaabbbbccccddddeeeeffff00001111", trimStr (bytesToStr [32, 65])),
             ("22223333444455556666777788889999", trimStr (bytesToStr [32, 65]))],
          pathToGuid := [(trimStr (bytesToStr [32, 65]),
            "22223333444455556666777788889999")] }
    ∧ (UnityPackage.fromEntries
        [⟨"aaaabbbbccccddddeeeeffff00001111" ++ "/pathname", [65], false⟩,
         ⟨"aaaabbbbccccddddeeeeffff00001111" ++ "/asset", [1], false⟩,
         ⟨"22223333444455556666777788889999" ++ "/pathname", [32, 65], false⟩,
         ⟨"22223333444455556666777788889999" ++ "/asset", [2], false⟩]).assets.length
      < (UnityPackage.fromEntries
        [⟨"aaaabbbbccccddddeeeeffff00001111" ++ "/pathname", [65], false⟩,
         ⟨"aaaabbbbccccddddeeeeffff00001111" ++ "/asset", [1], false⟩,
         ⟨"22223333444455556666777788889999" ++ "/pathname", [32, 65], false⟩,
         ⟨"22223333444455556666777788889999" ++ "/asset", [2], false⟩]).guidToPath.length :=
  fromEntries_duplicate_path "aaaabbbbccccddddeeeeffff00001111"
    "22223333444455556666777788889999" [65] [1] [32, 65] [2]
    (by decide) (by decide) (by decide) (by decide)

theorem replaceFirstSub_at (m0 rep post : List Char) : ∀ (pre : List Char),
    (∀ i, i < pre.length → ¬ m0.isPrefixOf ((pre ++ (m0 ++ post)).drop i)) →
    replaceFirstSub (pre ++ (m0 ++ post)) m0 rep = pre ++ (rep ++ post) := by
  intro pre
  induction pre with
  | nil =>
    intro _
    simp only [List.nil_append]
    unfold replaceFirstSub
    rw [if_pos (isPrefixOf_append_self m0 post)]
    rw [List.drop_left]
  | cons c pre ih =>
    intro h
    have h0 : ¬ m0.isPrefixOf ((c :: pre) ++ (m0 ++ post)) := by
      have := h 0 (by simp)
      simpa using this
    unfold replaceFirstSub
    rw [if_neg h0]
    simp only [List.cons_append]
    rw [show replaceFirstSub (pre ++ (m0 ++ post)) m0 rep
        = pre ++ (rep ++ post) from ih (fun i hi => by
      have := h (i + 1) (by simp; omega)
      simpa using this)]

theorem updateYamlProperties_skip (y : String) : ∀ props,
    (∀ kv ∈ props, firstKeyMatch kv.1.data y.data = none) →
    UnityPrefab.updateYamlProperties y props = y := by
  intro props
  induction props with
  | nil => intro _; rfl
  | cons kv rest ih =>
    intro h
    have h1 := h kv (List.mem_cons_self _ _)
    have h2 := ih (fun x hx => h x (List.mem_cons_of_mem _ hx))
    unfold UnityPrefab.updateYamlProperties at h2 ⊢
    simp only [List.foldl]
    rw [h1]
    exact h2

theorem updateComponents_foldl_skip (G : String)
    (props : List (String × String)) :
    ∀ (cs : List PrefabComponent) (cur : String),
      (∀ comp ∈ cs, comp.scriptGuid ≠ some G) →
      cs.foldl (fun cur comp =>
        if comp.scriptGuid = some G then
          (⟨replaceFirstSub cur.data comp.rawYaml.data
            (UnityPrefab.updateYamlProperties comp.rawYaml props).data⟩ : String)
        else cur) cur = cur := by
  intro cs
  induction cs with
  | nil => intro cur _; rfl
  | cons c cs ih =>
    intro cur h
    simp only [List.foldl]
    rw [if_neg (h c (List.mem_cons_self _ _))]
    exact ih cur (fun x hx => h x (List.mem_cons_of_mem _ hx))

/-- C9 amended: the property update is a first-substring-occurrence
replacement: when the key-line pattern matches the document at a position
before which the matched text has no other occurrence, exactly that span is
replaced by the captured prefix, one space and the new value; a key whose
pattern finds no match is silently ignored; and a document none of whose
script components carry the target guid is returned unchanged. -/
theorem updateComponentProperties_amended (doc doc2 y G k v : String)
    (props : List (String × String)) (pre m0 m1 post : List Char)
    (hms : firstKeyMatch k.data doc.data = some (m0, m1))
    (hdec : doc.data = pre ++ (m0 ++ post))
    (hfirst : ∀ i, i < pre.length → ¬ m0.isPrefixOf (doc.data.drop i))
    (hskip : ∀ kv ∈ props, firstKeyMatch kv.1.data y.data = none)
    (hnone : ∀ comp ∈ UnityPrefab.parsePrefabComponents doc2,
      comp.scriptGuid ≠ some G) :
    UnityPrefab.updateYamlProperties doc [(k, v)]
        = ⟨pre ++ ((m1 ++ ' ' :: v.data) ++ post)⟩
    ∧ UnityPrefab.updateYamlProperties y props = y
    ∧ UnityPrefab.updateComponentProperties doc2 G props = doc2 := by
  refine ⟨?_, updateYamlProperties_skip y props hskip, ?_⟩
  · unfold UnityPrefab.updateYamlProperties
    simp only [List.foldl]
    rw [hms]
    show String.mk (replaceFirstSub doc.data m0 (m1 ++ ' ' :: v.data)) = _
    rw [hdec] at hfirst ⊢
    rw [replaceFirstSub_at m0 _ post pre hfirst]
  · unfold UnityPrefab.updateComponentProperties
    exact updateComponents_foldl_skip G props _ doc2 hnone

set_option maxRecDepth 8000 in
/-- C9 counterexample: on a prefab document whose matching script component
holds the lines of text built below, updating the key foo matches the line
holding two spaces, foo, a colon and the value one, but the substring
replacement then rewrites the earlier occurrence of that matched text inside
the longer preceding line, so a byte outside the targeted key's matched line
changes while the matched line keeps its old value, contradicting the
claimed frame that only the targeted line's value token may change. -/
theorem updateComponentProperties_earlier_line :
    UnityPrefab.updateComponentProperties
        "--- !u!114 &1\nMonoBehaviour:\n  m_Script: \x7bfileID: 11500000, guid: aaaabbbbccccddddeeeeffff00001111, type: 3\x7d\n zz  foo: 1\n  foo: 1\n"
        "aaaabbbbccccddddeeeeffff00001111" [("foo", "2")]
      = "--- !u!114 &1\nMonoBehaviour:\n  m_Script: \x7bfileID: 11500000, guid: aaaabbbbccccddddeeeeffff00001111, type: 3\x7d\n zz  foo: 2\n  foo: 1\n"
    ∧ ("--- !u!114 &1\nMonoBehaviour:\n  m_Script: \x7bfileID: 11500000, guid: aaaabbbbccccddddeeeeffff00001111, type: 3\x7d\n zz  foo: 2\n  foo: 1\n"
        : String)
      ≠ "--- !u!114 &1\nMonoBehaviour:\n  m_Script: \x7bfileID: 11500000, guid: aaaabbbbccccddddeeeeffff00001111, type: 3\x7d\n zz  foo: 1\n  foo: 2\n" := by
  exact ⟨by decide, by decide⟩

theorem updateComponentProperties_amended_witness :
    UnityPrefab.updateYamlProperties "  foo: 1\n" [("foo", "2")]
        = ⟨[] ++ (("  foo:".data ++ ' ' :: "2".data) ++ "\n".data)⟩
    ∧ UnityPrefab.updateYamlProperties "bar" [("foo", "2")] = "bar"
    ∧ UnityPrefab.updateComponentProperties
        "--- !u!114 &1\nMonoBehaviour:\n  x: 1\n"
        "aaaabbbbccccddddeeeeffff00001111" [("foo", "2")]
        = "--- !u!114 &1\nMonoBehaviour:\n  x: 1\n" :=
  updateComponentProperties_amended "  foo: 1\n"
    "--- !u!114 &1\nMonoBehaviour:\n  x: 1\n" "bar"
    "aaaabbbbccccddddeeeeffff00001111" "foo" "2" [("foo", "2")]
    [] "  foo: 1".data "  foo:".data "\n".data
    (by decide) (by decide)
    (fun i hi => absurd hi (Nat.not_lt_zero i))
    (by decide) (by decide)

theorem slashName_eq_guid (g1 g2 s1 s2 : String)
    (hg1 : ∀ c ∈ g1.data, c ≠ '/') (hg2 : ∀ c ∈ g2.data, c ≠ '/')
    (hs1 : ∀ c ∈ s1.data, c ≠ '/') (hs2 : ∀ c ∈ s2.data, c ≠ '/')
    (he : (⟨g1.data ++ '/' :: s1.data⟩ : String) = ⟨g2.data ++ '/' :: s2.data⟩) :
    g1 = g2 := by
  have h2 : nameParts ⟨g1.data ++ '/' :: s1.data⟩
      = nameParts ⟨g2.data ++ '/' :: s2.data⟩ := by rw [he]
  rw [nameParts_slash _ _ hg1 hs1, nameParts_slash _ _ hg2 hs2] at h2
  exact (List.cons_eq_cons.mp h2).1

theorem mset_append_fresh {α : Type} (m block : List (String × α)) (k : String)
    (v : α) (h : mget m k = none) :
    mset (m ++ block) k v = m ++ mset block k v := by
  induction m with
  | nil => simp
  | cons p rest ih =>
    obtain ⟨pk, pv⟩ := p
    have hne : pk ≠ k := by
      intro he
      rw [mget, if_pos he] at h
      cases h
    simp only [List.cons_append, mset, if_neg hne, List.append_eq]
    rw [ih (by rw [mget, if_neg hne] at h; exact h)]

theorem foldl_flatMap {α β γ : Type} (g : β → γ → β) (f : α → List γ)
    (l : List α) : ∀ (b : β),
    (l.flatMap f).foldl g b = l.foldl (fun acc a => (f a).foldl g acc) b := by
  induction l with
  | nil => intro b; rfl
  | cons x xs ih =>
    intro b
    rw [List.flatMap_cons, List.foldl_append, List.foldl, ih]

theorem mget_prefixed_none {β : Type} (acc : List (String × β))
    (done : List String)
    (hkeys : ∀ k ∈ acc.map (·.1), ∃ g' ∈ done, ∃ suf : String,
      (∀ c ∈ suf.data, c ≠ '/') ∧ k = ⟨g'.data ++ '/' :: suf.data⟩)
    (hdone : ∀ g' ∈ done, ∀ c ∈ g'.data, c ≠ '/')
    (g suf0 : String) (hg : ∀ c ∈ g.data, c ≠ '/')
    (hs0 : ∀ c ∈ suf0.data, c ≠ '/') (hnot : g ∉ done) :
    mget acc (⟨g.data ++ '/' :: suf0.data⟩ : String) = none := by
  rw [mget_eq_none_iff]
  intro hmem
  obtain ⟨g', hg', suf, hsuf, hk⟩ := hkeys _ hmem
  exact hnot (slashName_eq_guid g g' suf0 suf hg (hdone g' hg') hs0 hsuf hk ▸
    hg')

theorem entryBlock_keys (a : UnityAsset) :
    ∀ k ∈ (entryBlock a).map (·.1), ∃ suf : String,
      (∀ c ∈ suf.data, c ≠ '/') ∧ k = ⟨a.guid.data ++ '/' :: suf.data⟩ := by
  have hsub : ((entryBlock a).map (·.1)) ⊆
      [a.guid ++ "/pathname", a.guid ++ "/asset", a.guid ++ "/asset.meta",
       a.guid ++ "/preview.png"] := by
    unfold entryBlock
    rcases a.metaData with _ | md <;> rcases a.previewData with _ | pd <;>
      simp [List.subset_def]
  intro k hk
  have hk4 := hsub hk
  simp only [List.mem_cons, List.not_mem_nil, or_false] at hk4
  rcases hk4 with rfl | rfl | rfl | rfl
  · exact ⟨"pathname", by decide, rfl⟩
  · exact ⟨"asset", by decide, rfl⟩
  · exact ⟨"asset.meta", by decide, rfl⟩
  · exact ⟨"preview.png", by decide, rfl⟩

theorem export_step_eq (acc : List (String × TarGzEntry)) (a : UnityAsset)
    (h1 : mget acc (a.guid ++ "/pathname") = none)
    (h2 : mget acc (a.guid ++ "/asset") = none)
    (h3 : mget acc (a.guid ++ "/asset.meta") = none)
    (h4 : mget acc (a.guid ++ "/preview.png") = none) :
    (let guid := a.guid
     let e1 := mset acc (guid ++ "/pathname")
       ⟨guid ++ "/pathname", strToBytes a.assetPath, false⟩
     let e2 := mset e1 (guid ++ "/asset") ⟨guid ++ "/asset", a.assetData, false⟩
     let e3 :=
       match a.metaData with
       | some md => mset e2 (guid ++ "/asset.meta")
           ⟨guid ++ "/asset.meta", md, false⟩
       | none => e2
     let e4 :=
       match a.previewData with
       | some pd => mset e3 (guid ++ "/preview.png")
           ⟨guid ++ "/preview.png", pd, false⟩
       | none => e3
     e4) = acc ++ entryBlock a := by
  have n12 : (a.guid ++ "/pathname" : String) ≠ a.guid ++ "/asset" :=
    strAppend_suffix_ne a.guid _ _ (by decide)
  have n13 : (a.guid ++ "/pathname" : String) ≠ a.guid ++ "/asset.meta" :=
    strAppend_suffix_ne a.guid _ _ (by decide)
  have n14 : (a.guid ++ "/pathname" : String) ≠ a.guid ++ "/preview.png" :=
    strAppend_suffix_ne a.guid _ _ (by decide)
  have n23 : (a.guid ++ "/asset" : String) ≠ a.guid ++ "/asset.meta" :=
    strAppend_suffix_ne a.guid _ _ (by decide)
  have n24 : (a.guid ++ "/asset" : String) ≠ a.guid ++ "/preview.png" :=
    strAppend_suffix_ne a.guid _ _ (by decide)
  have n34 : (a.guid ++ "/asset.meta" : String) ≠ a.guid ++ "/preview.png" :=
    strAppend_suffix_ne a.guid _ _ (by decide)
  unfold entryBlock
  rcases hm : a.metaData with _ | md <;> rcases hp : a.previewData with _ | pd <;>
    simp only [hm, hp]
  · rw [mset_fresh _ _ _ h1, mset_append_fresh _ _ _ _ h2]
    simp [mset, n12]
  · rw [mset_fresh _ _ _ h1, mset_append_fresh _ _ _ _ h2,
      mset_append_fresh _ _ _ _ h4]
    simp [mset, n12, n14, n24]
  · rw [mset_fresh _ _ _ h1, mset_append_fresh _ _ _ _ h2,
      mset_append_fresh _ _ _ _ h3]
    simp [mset, n12, n13, n23]
  · rw [mset_fresh _ _ _ h1, mset_append_fresh _ _ _ _ h2,
      mset_append_fresh _ _ _ _ h3, mset_append_fresh _ _ _ _ h4]
    simp [mset, n12, n13, n14, n23, n24, n34]

theorem extract_step_eq (acc : List (String × TarGzEntry)) (a : UnityAsset)
    (h1 : mget acc (a.guid ++ "/pathname") = none)
    (h2 : mget acc (a.guid ++ "/asset") = none)
    (h3 : mget acc (a.guid ++ "/asset.meta") = none)
    (h4 : mget acc (a.guid ++ "/preview.png") = none) :
    (fileBlock a).foldl (fun m f => mset m f.name f) acc
      = acc ++ entryBlock a := by
  have n12 : (a.guid ++ "/pathname" : String) ≠ a.guid ++ "/asset" :=
    strAppend_suffix_ne a.guid _ _ (by decide)
  have n13 : (a.guid ++ "/pathname" : String) ≠ a.guid ++ "/asset.meta" :=
    strAppend_suffix_ne a.guid _ _ (by decide)
  have n14 : (a.guid ++ "/pathname" : String) ≠ a.guid ++ "/preview.png" :=
    strAppend_suffix_ne a.guid _ _ (by decide)
  have n23 : (a.guid ++ "/asset" : String) ≠ a.guid ++ "/asset.meta" :=
    strAppend_suffix_ne a.guid _ _ (by decide)
  have n24 : (a.guid ++ "/asset" : String) ≠ a.guid ++ "/preview.png" :=
    strAppend_suffix_ne a.guid _ _ (by decide)
  have n34 : (a.guid ++ "/asset.meta" : String) ≠ a.guid ++ "/preview.png" :=
    strAppend_suffix_ne a.guid _ _ (by decide)
  unfold fileBlock entryBlock
  rcases hm : a.metaData with _ | md <;> rcases hp : a.previewData with _ | pd <;>
    simp only [hm, hp, List.map, List.foldl, List.append_nil, List.nil_append,
      List.cons_append, List.map_append]
  · rw [mset_fresh _ _ _ h1, mset_append_fresh _ _ _ _ h2]
    simp [mset, n12]
  · rw [mset_fresh _ _ _ h1, mset_append_fresh _ _ _ _ h2,
      mset_append_fresh _ _ _ _ h4]
    simp [mset, n12, n14, n24]
  · rw [mset_fresh _ _ _ h1, mset_append_fresh _ _ _ _ h2,
      mset_append_fresh _ _ _ _ h3]
    simp [mset, n12, n13, n23]
  · rw [mset_fresh _ _ _ h1, mset_append_fresh _ _ _ _ h2,
      mset_append_fresh _ _ _ _ h3, mset_append_fresh _ _ _ _ h4]
    simp [mset, n12, n13, n14, n23, n24, n34]

theorem blockFold_eq
    (f : List (String × TarGzEntry) → UnityAsset → List (String × TarGzEntry))
    (hf : ∀ acc a,
      mget acc (a.guid ++ "/pathname") = none →
      mget acc (a.guid ++ "/asset") = none →
      mget acc (a.guid ++ "/asset.meta") = none →
      mget acc (a.guid ++ "/preview.png") = none →
      f acc a = acc ++ entryBlock a) :
    ∀ (la : List UnityAsset) (acc : List (String × TarGzEntry))
      (done : List String),
      (∀ k ∈ acc.map (·.1), ∃ g' ∈ done, ∃ suf : String,
        (∀ c ∈ suf.data, c ≠ '/') ∧ k = ⟨g'.data ++ '/' :: suf.data⟩) →
      (∀ g' ∈ done, ∀ c ∈ g'.data, c ≠ '/') →
      (∀ a ∈ la, ∀ c ∈ a.guid.data, c ≠ '/') →
      (∀ a ∈ la, a.guid ∉ done) →
      ((la.map (·.guid)).Nodup) →
      la.foldl f acc = acc ++ la.flatMap entryBlock := by
  intro la
  induction la with
  | nil => intro acc done _ _ _ _ _; simp
  | cons a la ih =>
    intro acc done hkeys hdone hla hdisj hnd
    have hga : ∀ c ∈ a.guid.data, c ≠ '/' := hla a (List.mem_cons_self _ _)
    have hnot : a.guid ∉ done := hdisj a (List.mem_cons_self _ _)
    have hstep : f acc a = acc ++ entryBlock a :=
      hf acc a
        (mget_prefixed_none acc done hkeys hdone a.guid "pathname" hga
          (by decide) hnot)
        (mget_prefixed_none acc done hkeys hdone a.guid "asset" hga
          (by decide) hnot)
        (mget_prefixed_none acc done hkeys hdone a.guid "asset.meta" hga
          (by decide) hnot)
        (mget_prefixed_none acc done hkeys hdone a.guid "preview.png" hga
          (by decide) hnot)
    rw [List.foldl_cons, hstep]
    rw [ih (acc ++ entryBlock a) (done ++ [a.guid]) ?hk ?hd ?hl ?hj ?hn]
    · rw [List.flatMap_cons, List.append_assoc]
    case hk =>
      intro k hk
      rw [List.map_append, List.mem_append] at hk
      rcases hk with hk | hk
      · obtain ⟨g', hg', suf, hsuf, hkk⟩ := hkeys k hk
        exact ⟨g', List.mem_append_left _ hg', suf, hsuf, hkk⟩
      · obtain ⟨suf, hsuf, hkk⟩ := entryBlock_keys a k hk
        exact ⟨a.guid, List.mem_append_right _ (List.mem_singleton.mpr rfl),
          suf, hsuf, hkk⟩
    case hd =>
      intro g' hg'
      rw [List.mem_append, List.mem_singleton] at hg'
      rcases hg' with hg' | rfl
      · exact hdone g' hg'
      · exact hga
    case hl =>
      exact fun x hx => hla x (List.mem_cons_of_mem _ hx)
    case hj =>
      intro x hx
      rw [List.mem_append, List.mem_singleton]
      rintro (hin | heq)
      · exact hdisj x (List.mem_cons_of_mem _ hx) hin
      · rw [List.map_cons, List.nodup_cons] at hnd
        exact hnd.1 (heq ▸ List.mem_map_of_mem (·.guid) hx)
    case hn =>
      rw [List.map_cons, List.nodup_cons] at hnd
      exact hnd.2

theorem exportEntriesMap_eq_blocks (S : UnityPackage)
    (hguid : ∀ a ∈ S.assets.map (·.2), ∀ c ∈ a.guid.data, c ≠ '/')
    (hgnd : ((S.assets.map (·.2)).map (·.guid)).Nodup) :
    UnityPackage.exportEntriesMap S
      = (S.assets.map (·.2)).flatMap entryBlock := by
  unfold UnityPackage.exportEntriesMap
  exact blockFold_eq _
    (fun acc a h1 h2 h3 h4 => export_step_eq acc a h1 h2 h3 h4)
    (S.assets.map (·.2)) [] []
    (by intro k hk; simp at hk) (by intro g' hg'; simp at hg')
    hguid (by intro a _; simp) hgnd

theorem exportFiles_eq_blocks (S : UnityPackage)
    (hguid : ∀ a ∈ S.assets.map (·.2), ∀ c ∈ a.guid.data, c ≠ '/')
    (hgnd : ((S.assets.map (·.2)).map (·.guid)).Nodup) :
    UnityPackage.exportFiles S = (S.assets.map (·.2)).flatMap fileBlock := by
  unfold UnityPackage.exportFiles
  rw [exportEntriesMap_eq_blocks S hguid hgnd, List.map_flatMap]
  rfl

theorem extractEntriesMap_blocks (la : List UnityAsset)
    (hguid : ∀ a ∈ la, ∀ c ∈ a.guid.data, c ≠ '/')
    (hgnd : (la.map (·.guid)).Nodup) :
    extractEntriesMap (la.flatMap fileBlock) = la.flatMap entryBlock := by
  unfold extractEntriesMap
  rw [foldl_flatMap]
  exact blockFold_eq _
    (fun acc a h1 h2 h3 h4 => extract_step_eq acc a h1 h2 h3 h4)
    la [] []
    (by intro k hk; simp at hk) (by intro g' hg'; simp at hg')
    hguid (by intro a _; simp) hgnd

theorem groupStep_pathname (m : List (String × GuidGroup)) (g : String)
    (d : List Nat) (hg : ∀ c ∈ g.data, c ≠ '/') :
    groupStep m ⟨g ++ "/pathname", d, false⟩
      = mset m g ⟨((mget m g).getD ⟨none, none, none, none⟩).asset,
          ((mget m g).getD ⟨none, none, none, none⟩).meta,
          some ⟨g ++ "/pathname", d, false⟩,
          ((mget m g).getD ⟨none, none, none, none⟩).preview⟩ := by
  unfold groupStep
  have hnp : nameParts (g ++ "/pathname") = [g, "pathname"] :=
    nameParts_slash g "pathname" hg (by decide)
  simp [hnp]

theorem groupStep_asset (m : List (String × GuidGroup)) (g : String)
    (d : List Nat) (hg : ∀ c ∈ g.data, c ≠ '/') :
    groupStep m ⟨g ++ "/asset", d, false⟩
      = mset m g ⟨some ⟨g ++ "/asset", d, false⟩,
          ((mget m g).getD ⟨none, none, none, none⟩).meta,
          ((mget m g).getD ⟨none, none, none, none⟩).pathname,
          ((mget m g).getD ⟨none, none, none, none⟩).preview⟩ := by
  unfold groupStep
  have hnp : nameParts (g ++ "/asset") = [g, "asset"] :=
    nameParts_slash g "asset" hg (by decide)
  simp [hnp]

theorem groupStep_meta (m : List (String × GuidGroup)) (g : String)
    (d : List Nat) (hg : ∀ c ∈ g.data, c ≠ '/') :
    groupStep m ⟨g ++ "/asset.meta", d, false⟩
      = mset m g ⟨((mget m g).getD ⟨none, none, none, none⟩).asset,
          some ⟨g ++ "/asset.meta", d, false⟩,
          ((mget m g).getD ⟨none, none, none, none⟩).pathname,
          ((mget m g).getD ⟨none, none, none, none⟩).preview⟩ := by
  unfold groupStep
  have hnp : nameParts (g ++ "/asset.meta") = [g, "asset.meta"] :=
    nameParts_slash g "asset.meta" hg (by decide)
  simp [hnp]

theorem groupStep_preview (m : List (String × GuidGroup)) (g : String)
    (d : List Nat) (hg : ∀ c ∈ g.data, c ≠ '/') :
    groupStep m ⟨g ++ "/preview.png", d, false⟩
      = mset m g ⟨((mget m g).getD ⟨none, none, none, none⟩).asset,
          ((mget m g).getD ⟨none, none, none, none⟩).meta,
          ((mget m g).getD ⟨none, none, none, none⟩).pathname,
          some ⟨g ++ "/preview.png", d, false⟩⟩ := by
  unfold groupStep
  have hnp : nameParts (g ++ "/preview.png") = [g, "preview.png"] :=
    nameParts_slash g "preview.png" hg (by decide)
  simp [hnp]

theorem groupFold_block (acc : List (String × GuidGroup)) (a : UnityAsset)
    (hg : ∀ c ∈ a.guid.data, c ≠ '/') (hfresh : mget acc a.guid = none) :
    (fileBlock a).foldl groupStep acc = acc ++ [(a.guid, groupOf a)] := by
  have hmg : ∀ (l : List (String × GuidGroup)),
      mget (acc ++ l) a.guid = mget l a.guid :=
    fun l => mget_append_right _ _ _ hfresh
  have hms : ∀ (l : List (String × GuidGroup)) (v : GuidGroup),
      mset (acc ++ l) a.guid v = acc ++ mset l a.guid v :=
    fun l v => mset_append_fresh _ _ _ _ hfresh
  have hms0 : ∀ (v : GuidGroup), mset acc a.guid v = acc ++ [(a.guid, v)] :=
    fun v => mset_fresh _ _ _ hfresh
  unfold fileBlock entryBlock groupOf
  rcases hm : a.metaData with _ | md <;> rcases hp : a.previewData with _ | pd <;>
    simp only [hm, hp, List.map, List.foldl, List.append_nil, List.nil_append,
      List.cons_append, List.map_append, Option.map_none, Option.map_some]
  · rw [groupStep_pathname _ _ _ hg, groupStep_asset _ _ _ hg]
    simp [hfresh, hmg, hms, hms0, mget, mset]
  · rw [groupStep_pathname _ _ _ hg, groupStep_asset _ _ _ hg,
      groupStep_preview _ _ _ hg]
    simp [hfresh, hmg, hms, hms0, mget, mset]
  · rw [groupStep_pathname _ _ _ hg, groupStep_asset _ _ _ hg,
      groupStep_meta _ _ _ hg]
    simp [hfresh, hmg, hms, hms0, mget, mset]
  · rw [groupStep_pathname _ _ _ hg, groupStep_asset _ _ _ hg,
      groupStep_meta _ _ _ hg, groupStep_preview _ _ _ hg]
    simp [hfresh, hmg, hms, hms0, mget, mset]

theorem groupsFold_eq : ∀ (la : List UnityAsset)
    (acc : List (String × GuidGroup)),
    (∀ a ∈ la, ∀ c ∈ a.guid.data, c ≠ '/') →
    (∀ a ∈ la, mget acc a.guid = none) →
    ((la.map (·.guid)).Nodup) →
    (la.flatMap fileBlock).foldl groupStep acc
      = acc ++ la.map (fun a => (a.guid, groupOf a)) := by
  intro la
  induction la with
  | nil => intro acc _ _ _; simp
  | cons a la ih =>
    intro acc hslash hfresh hnd
    rw [List.flatMap_cons, List.foldl_append]
    rw [groupFold_block acc a (hslash a (List.mem_cons_self _ _))
      (hfresh a (List.mem_cons_self _ _))]
    rw [ih (acc ++ [(a.guid, groupOf a)])
      (fun x hx => hslash x (List.mem_cons_of_mem _ hx)) ?hf ?hn]
    · simp
    case hf =>
      intro x hx
      rw [mget_append_right _ _ _ (hfresh x (List.mem_cons_of_mem _ hx))]
      have hne : a.guid ≠ x.guid := by
        rw [List.map_cons, List.nodup_cons] at hnd
        intro he
        exact hnd.1 (he ▸ List.mem_map_of_mem (·.guid) hx)
      simp [mget, hne]
    case hn =>
      rw [List.map_cons, List.nodup_cons] at hnd
      exact hnd.2

theorem buildFold_eq : ∀ (la : List UnityAsset) (acc : UnityPackage),
    (∀ a ∈ la, trimStr a.assetPath = a.assetPath) →
    (∀ a ∈ la, mget acc.assets a.assetPath = none) →
    ((la.map (·.assetPath)).Nodup) →
    ((la.map (fun a => (a.guid, groupOf a))).foldl buildStep acc).assets
      = acc.assets ++ la.map (fun a => (a.assetPath, a)) := by
  intro la
  induction la with
  | nil => intro acc _ _ _; simp
  | cons a la ih =>
    intro acc htrim hfresh hnd
    have htrima := htrim a (List.mem_cons_self _ _)
    have hfresha := hfresh a (List.mem_cons_self _ _)
    have hmapm : (a.metaData.map (fun md =>
        (⟨a.guid ++ "/asset.meta", md, false⟩ : TarGzEntry))).map (·.data)
        = a.metaData := by rcases a.metaData <;> rfl
    have hmapp : (a.previewData.map (fun pd =>
        (⟨a.guid ++ "/preview.png", pd, false⟩ : TarGzEntry))).map (·.data)
        = a.previewData := by rcases a.previewData <;> rfl
    have hstep : (buildStep acc (a.guid, groupOf a)).assets
        = acc.assets ++ [(a.assetPath, a)] := by
      show (mset acc.assets (trimStr (bytesToStr (strToBytes a.assetPath)))
          ⟨a.guid, trimStr (bytesToStr (strToBytes a.assetPath)), a.assetData,
            (a.metaData.map (fun md =>
              (⟨a.guid ++ "/asset.meta", md, false⟩ : TarGzEntry))).map (·.data),
            (a.previewData.map (fun pd =>
              (⟨a.guid ++ "/preview.png", pd, false⟩ : TarGzEntry))).map (·.data)⟩)
        = acc.assets ++ [(a.assetPath, a)]
      rw [bytesToStr_strToBytes, htrima, hmapm, hmapp]
      rw [mset_fresh _ _ _ hfresha]
    rw [List.map_cons, List.foldl_cons]
    rw [ih (buildStep acc (a.guid, groupOf a))
      (fun x hx => htrim x (List.mem_cons_of_mem _ hx)) ?hf ?hn]
    · rw [hstep]
      simp
    case hf =>
      intro x hx
      rw [hstep, mget_append_right _ _ _ (hfresh x (List.mem_cons_of_mem _ hx))]
      have hne : a.assetPath ≠ x.assetPath := by
        rw [List.map_cons, List.nodup_cons] at hnd
        intro he
        exact hnd.1 (he ▸ List.mem_map_of_mem (·.assetPath) hx)
      simp [mget, hne]
    case hn =>
      rw [List.map_cons, List.nodup_cons] at hnd
      exact hnd.2

theorem storeWF_parts (S : UnityPackage) (hWF : storeWF S = true) :
    (∀ pa ∈ S.assets, pa.2.assetPath = pa.1)
    ∧ (∀ pa ∈ S.assets, trimStr pa.1 = pa.1)
    ∧ (∀ pa ∈ S.assets, ∀ c ∈ pa.2.guid.data, c ≠ '/')
    ∧ ((S.assets.map (·.1)).Nodup)
    ∧ ((S.assets.map (·.2.guid)).Nodup) := by
  unfold storeWF at hWF
  simp only [Bool.and_eq_true, List.all_eq_true, decide_eq_true_eq,
    Bool.not_eq_true'] at hWF
  obtain ⟨⟨hall, hpnd⟩, hgnd⟩ := hWF
  refine ⟨fun pa hpa => ((hall pa hpa).1).1,
    fun pa hpa => ((hall pa hpa).1).2, ?_, hpnd, hgnd⟩
  intro pa hpa c hc he
  subst he
  have h := (hall pa hpa).2
  simp [List.contains_eq_any_beq] at h
  exact h hc

theorem fromEntries_exportFiles_assets (S : UnityPackage)
    (hWF : storeWF S = true) :
    (UnityPackage.fromEntries (UnityPackage.exportFiles S)).assets
      = S.assets := by
  obtain ⟨hpa, htrim, hguid, hpnd, hgnd⟩ := storeWF_parts S hWF
  have hla_guid : ∀ a ∈ S.assets.map (·.2), ∀ c ∈ a.guid.data, c ≠ '/' := by
    intro a ha
    obtain ⟨pa, hpa', rfl⟩ := List.mem_map.mp ha
    exact hguid pa hpa'
  have hla_gnd : (((S.assets.map (·.2)).map (·.guid)).Nodup) := by
    rw [List.map_map]
    exact hgnd
  have hla_trim : ∀ a ∈ S.assets.map (·.2), trimStr a.assetPath = a.assetPath := by
    intro a ha
    obtain ⟨pa, hpa', rfl⟩ := List.mem_map.mp ha
    rw [hpa pa hpa']
    exact htrim pa hpa'
  have hla_pnd : (((S.assets.map (·.2)).map (·.assetPath)).Nodup) := by
    rw [List.map_map]
    have he : S.assets.map ((·.assetPath) ∘ (·.2)) = S.assets.map (·.1) :=
      List.map_congr_left (fun pa hpa' => hpa pa hpa')
    rw [he]
    exact hpnd
  unfold UnityPackage.fromEntries
  rw [exportFiles_eq_blocks S hla_guid hla_gnd]
  rw [extractEntriesMap_blocks _ hla_guid hla_gnd]
  show (List.foldl buildStep ⟨[], [], []⟩ (List.foldl groupStep []
    (((S.assets.map (·.2)).flatMap entryBlock).map (·.2)))).assets = S.assets
  rw [List.map_flatMap]
  rw [show ((S.assets.map (·.2)).flatMap fun a => (entryBlock a).map (·.2))
      = (S.assets.map (·.2)).flatMap fileBlock from rfl]
  rw [groupsFold_eq (S.assets.map (·.2)) [] hla_guid (fun a _ => rfl) hla_gnd]
  rw [List.nil_append]
  rw [buildFold_eq (S.assets.map (·.2)) ⟨[], [], []⟩ hla_trim
    (fun a _ => rfl) hla_pnd]
  rw [List.map_map]
  have hfinal : S.assets.map ((fun a => (a.assetPath, a)) ∘ (·.2))
      = S.assets.map (fun pa => pa) :=
    List.map_congr_left (fun pa hpa' => by
      show (pa.2.assetPath, pa.2) = pa
      rw [hpa pa hpa'])
  rw [hfinal]
  simp

theorem exportFiles_congr (S T : UnityPackage) (h : S.assets = T.assets) :
    UnityPackage.exportFiles S = UnityPackage.exportFiles T := by
  unfold UnityPackage.exportFiles UnityPackage.exportEntriesMap
  rw [h]

/-- C1: on every well-formed store (map keys equal asset paths, paths
trim-fixed, guids slash-free, paths and guids duplicate-free, as a
successful import guarantees), exporting the archive entry list and
re-importing it reproduces the asset map exactly, so the asset paths and
every asset's guid, path, payload, sidecar and preview bytes are preserved,
and the equality persists across three successive export-import round
trips. -/
theorem fromEntries_exportFiles_roundtrip (S : UnityPackage)
    (hWF : storeWF S = true) :
    (UnityPackage.fromEntries (UnityPackage.exportFiles S)).assets = S.assets
    ∧ (UnityPackage.fromEntries (UnityPackage.exportFiles
        (UnityPackage.fromEntries (UnityPackage.exportFiles S)))).assets
        = S.assets
    ∧ (UnityPackage.fromEntries (UnityPackage.exportFiles
        (UnityPackage.fromEntries (UnityPackage.exportFiles
          (UnityPackage.fromEntries (UnityPackage.exportFiles S)))))).assets
        = S.assets := by
  have h1 := fromEntries_exportFiles_assets S hWF
  have h2 : UnityPackage.exportFiles
      (UnityPackage.fromEntries (UnityPackage.exportFiles S))
      = UnityPackage.exportFiles S :=
    exportFiles_congr _ _ h1
  have h3 : (UnityPackage.fromEntries (UnityPackage.exportFiles
      (UnityPackage.fromEntries (UnityPackage.exportFiles S)))).assets
      = S.assets := by rw [h2, h1]
  have h4 : UnityPackage.exportFiles (UnityPackage.fromEntries
      (UnityPackage.exportFiles (UnityPackage.fromEntries
        (UnityPackage.exportFiles S)))) = UnityPackage.exportFiles S :=
    exportFiles_congr _ _ h3
  exact ⟨h1, h3, by rw [h4, h1]⟩

theorem fromEntries_exportFiles_roundtrip_witness :
    (UnityPackage.fromEntries (UnityPackage.exportFiles
        ⟨[("Assets/a.png", ⟨"aaaabbbbccccddddeeeeffff00001111",
            "Assets/a.png", [1, 2], some [3], some [4]⟩),
          ("Assets/b.txt", ⟨"22223333444455556666777788889999",
            "Assets/b.txt", [5], none, none⟩)], [], []⟩)).assets
      = [("Assets/a.png", ⟨"aaaabbbbccccddddeeeeffff00001111",
            "Assets/a.png", [1, 2], some [3], some [4]⟩),
         ("Assets/b.txt", ⟨"22223333444455556666777788889999",
            "Assets/b.txt", [5], none, none⟩)]
    ∧ (UnityPackage.fromEntries (UnityPackage.exportFiles
        (UnityPackage.fromEntries (UnityPackage.exportFiles
          ⟨[("Assets/a.png", ⟨"aaaabbbbccccddddeeeeffff00001111",
              "Assets/a.png", [1, 2], some [3], some [4]⟩),
            ("Assets/b.txt", ⟨"22223333444455556666777788889999",
              "Assets/b.txt", [5], none, none⟩)], [], []⟩)))).assets
      = [("Assets/a.png", ⟨"aaaabbbbccccddddeeeeffff00001111",
            "Assets/a.png", [1, 2], some [3], some [4]⟩),
         ("Assets/b.txt", ⟨"22223333444455556666777788889999",
            "Assets/b.txt", [5], none, none⟩)]
    ∧ (UnityPackage.fromEntries (UnityPackage.exportFiles
        (UnityPackage.fromEntries (UnityPackage.exportFiles
          (UnityPackage.fromEntries (UnityPackage.exportFiles
            ⟨[("Assets/a.png", ⟨"aaaabbbbccccddddeeeeffff00001111",
                "Assets/a.png", [1, 2], some [3], some [4]⟩),
              ("Assets/b.txt", ⟨"22223333444455556666777788889999",
                "Assets/b.txt", [5], none, none⟩)], [], []⟩)))))).assets
      = [("Assets/a.png", ⟨"aaaabbbbccccddddeeeeffff00001111",
            "Assets/a.png", [1, 2], some [3], some [4]⟩),
         ("Assets/b.txt", ⟨"22223333444455556666777788889999",
            "Assets/b.txt", [5], none, none⟩)] :=
  fromEntries_exportFiles_roundtrip
    ⟨[("Assets/a.png", ⟨"aaaabbbbccccddddeeeeffff00001111",
        "Assets/a.png", [1, 2], some [3], some [4]⟩),
      ("Assets/b.txt", ⟨"22223333444455556666777788889999",
        "Assets/b.txt", [5], none, none⟩)], [], []⟩
    (by decide)
